import Mathlib

/-!
Verification development for the `diode_bridge_v2` protocol stack
(`src/diode_bridge_v2`): the coercion primitives (`utils/coerce.py`),
key encapsulation (`utils/key_encapsulation.py`), the packet codec
(`schemas/packet.py`, `schemas/message.py`), layer-0 framing
(`core/layer_0.py`), the layer-1 `Messenger` state machine
(`core/layer_1.py`) and the controller read loop (`core/controller.py`).

Modelling conventions, used throughout:
* Python `bytes` values are modelled as `List Nat`, one entry per byte
  (entries produced by the encoders are always `< 256`).
* Python exceptions (struct errors, pydantic validation errors, failed
  `assert`s, AEAD authentication failures) are modelled as `Option`/`none`
  or as an explicit parse-failure constructor.  Functions whose exceptions
  matter for partial-state reasoning return the state reached at the point
  the exception was raised, as documented at each definition.
* `datetime.datetime` values that the wire format can carry are
  whole-second UTC timestamps; they are modelled as `Int` seconds since
  the Unix epoch (the `datetime32` codec of `coerce.py` is exactly a
  big-endian signed 32-bit seconds value).
* The cryptographic primitives (keyed/keyless BLAKE2b with a chosen
  digest size, and the ChaCha20-Poly1305 AEAD used by
  `key_encapsulation.py`) are external library calls; they are modelled
  as an explicit parameter record `Crypto`, so every theorem quantifies
  over the primitive (with the library's documented laws as hypotheses
  where they are needed).  All of the repository's own byte layouts,
  guards and control flow are translated directly from the source.
-/

/-! ## Coercion primitives (`diode_bridge_v2/utils/coerce.py`)

Big-endian fixed-width codecs.  The Python decoders return `None` for
`b''` and raise `struct.error` on any other wrong length; both outcomes
make every caller in the packet codec fail, so they are merged into
`none` here (the packet-level theorems only depend on that).  -/

namespace Coerce

/-- `coerce.from_unsigned_integer32`: `struct.pack('>I', n)` for `n < 2^32`. -/
def from_unsigned_integer32 (n : Nat) : List Nat :=
  [n / 16777216 % 256, n / 65536 % 256, n / 256 % 256, n % 256]

/-- `coerce.to_unsigned_integer32`: `struct.unpack('>I', b)` (exactly 4 bytes). -/
def to_unsigned_integer32 (b : List Nat) : Option Nat :=
  match b with
  | [b0, b1, b2, b3] => some (((b0 * 256 + b1) * 256 + b2) * 256 + b3)
  | _ => none

/-- `coerce.from_unsigned_integer16`: `struct.pack('>H', n)` for `n < 2^16`. -/
def from_unsigned_integer16 (n : Nat) : List Nat :=
  [n / 256 % 256, n % 256]

/-- `coerce.to_unsigned_integer16`: `struct.unpack('>H', b)` (exactly 2 bytes). -/
def to_unsigned_integer16 (b : List Nat) : Option Nat :=
  match b with
  | [b0, b1] => some (b0 * 256 + b1)
  | _ => none

/-- `coerce.from_datetime32`: a whole-second UTC datetime packed as a
big-endian signed 32-bit `struct.pack('>i', t)` (two's complement). -/
def from_datetime32 (t : Int) : List Nat :=
  from_unsigned_integer32 ((t % 4294967296).toNat)

/-- `coerce.to_datetime32`: `struct.unpack('>i', b)` read back as a UTC
datetime (modelled by its integer timestamp). -/
def to_datetime32 (b : List Nat) : Option Int :=
  match to_unsigned_integer32 b with
  | some n => some (if n < 2147483648 then (n : Int) else (n : Int) - 4294967296)
  | none => none

/-- `coerce.from_uuid`: `uuid.bytes`, the raw 16 bytes of the UUID (a UUID
is modelled as its 16-byte big-endian representation). -/
def from_uuid (u : List Nat) : List Nat := u

/-- `coerce.to_uuid`: `UUID(bytes=b)`, which requires exactly 16 bytes. -/
def to_uuid (b : List Nat) : Option (List Nat) :=
  if b.length = 16 then some b else none

end Coerce

/-! ## Cryptographic primitives as parameters -/

/-- External cryptographic primitives used by the codec and the key
encapsulation.  `blake2b key data digestSize` models
`hashlib.blake2b(data, key=key, digest_size=digestSize)` (keyless calls
pass `key = []`, matching Python's default `key=b''`; a streaming
`.update` sequence is the hash of the concatenation of its chunks).
`aeadEncrypt key nonce pt` / `aeadDecrypt key nonce ct` model
`ChaCha20Poly1305(key).encrypt/decrypt(nonce, ·, None)`, with `none` for
`InvalidTag`. -/
structure Crypto where
  blake2b : List Nat → List Nat → Nat → List Nat
  aeadEncrypt : List Nat → List Nat → List Nat → List Nat
  aeadDecrypt : List Nat → List Nat → List Nat → Option (List Nat)

/-! ## Key encapsulation (`diode_bridge_v2/utils/key_encapsulation.py`) -/

def HASH_KEY_LEN : Nat := 16

def TOKEN_LEN : Nat := 44

/-- `key_encapsulation.encrypt_key(hash_key, secret_key)`.  The random
12-byte nonce drawn by `secrets.token_bytes(12)` is passed explicitly.
The two `assert` statements of the source (`len(hash_key) ==
HASH_KEY_LEN` and `len(out) == TOKEN_LEN - len(nonce)`) are modelled as
guards returning `none` (an `AssertionError` in Python). -/
def encrypt_key (C : Crypto) (nonce hash_key secret_key : List Nat) :
    Option (List Nat) :=
  if hash_key.length = HASH_KEY_LEN then
    let out := C.aeadEncrypt (secret_key.take 32) nonce hash_key
    if out.length = TOKEN_LEN - nonce.length then some (nonce ++ out) else none
  else none

/-- `key_encapsulation.decrypt_key(encapsulated_key, secret_key)`:
splits the 44-byte token into a 12-byte nonce and ciphertext+tag and
AEAD-decrypts with the first 32 bytes of the secret key.  The `assert`s
on the token and output lengths, and the AEAD `InvalidTag` failure, all
become `none`. -/
def decrypt_key (C : Crypto) (encapsulated_key secret_key : List Nat) :
    Option (List Nat) :=
  if encapsulated_key.length = TOKEN_LEN then
    match C.aeadDecrypt (secret_key.take 32) (encapsulated_key.take 12)
        (encapsulated_key.drop 12) with
    | some out => if out.length = HASH_KEY_LEN then some out else none
    | none => none
  else none

/-! ## Packet codec (`diode_bridge_v2/schemas/message.py`, `schemas/packet.py`) -/

def MAX_INT_32 : Nat := 2 ^ 31 - 1

def HEADER_DIGEST_SIZE : Nat := 8

def MESSAGE_DIGEST_SIZE : Nat := 16

def MESSAGE_HEADER_DIGEST_SIZE : Nat := 8

def PACKET_HEADER_SIZE : Nat := 16 + 16 + 4 + 4 + 4 + 4 + TOKEN_LEN + HEADER_DIGEST_SIZE

def MESSAGE_HEADER_SIZE : Nat := 4 + 4 + 4 + 2 + MESSAGE_DIGEST_SIZE + MESSAGE_HEADER_DIGEST_SIZE

/-! `ContentType` enum values (`schemas/message.py`). -/

namespace ContentType

def STRING : Nat := 1

def BINARY : Nat := 2

def JSON_DICT : Nat := 3

def MULTIPART_FRAGMENT : Nat := 4

end ContentType

/-- `ContentType(n)` succeeds exactly on the four enum values. -/
def isContentType (n : Nat) : Bool :=
  n = ContentType.STRING || n = ContentType.BINARY ||
  n = ContentType.JSON_DICT || n = ContentType.MULTIPART_FRAGMENT

/-- Pydantic `conint(ge=1, le=MAX_INT_32)`. -/
def inRangeId (n : Nat) : Bool := 1 ≤ n && n ≤ MAX_INT_32

/-- Pydantic `conint(ge=0, le=MAX_INT_32)`. -/
def inRangeClock (n : Nat) : Bool := n ≤ MAX_INT_32

/-- `MessageHeader` (`schemas/message.py`).  `content_hash` is stored in the
source as a 32-character lowercase hex string (pydantic
`constr(regex='[0-9a-f]{32}')`); it is modelled as the corresponding 16 raw
bytes, which `coerce.from_hex`/`coerce.to_hex` put in bijection with those
strings. -/
structure MessageHeader where
  message_id : Nat
  message_prev : Nat
  content_length : Nat
  content_type : Nat
  content_hash : List Nat
deriving DecidableEq

/-- `Message` (`schemas/message.py`): header, payload bytes and the
optional in-memory link to the previous multipart fragment. -/
inductive Message where
  | mk (header : MessageHeader) (binary_data : List Nat)
      (previous_message : Option Message)

def Message.decEq : (a b : Message) → Decidable (a = b)
  | .mk h1 d1 p1, .mk h2 d2 p2 =>
    if hh : h1 = h2 then
      if hd : d1 = d2 then
        match p1, p2 with
        | none, none => isTrue (by rw [hh, hd])
        | some x, some y =>
          match Message.decEq x y with
          | isTrue hxy => isTrue (by rw [hh, hd, hxy])
          | isFalse hxy => isFalse (by
              intro h
              injection h with _ _ hp
              exact hxy (Option.some.inj hp))
        | none, some _ => isFalse (by
            intro h
            injection h with _ _ hp
            exact Option.noConfusion hp)
        | some _, none => isFalse (by
            intro h
            injection h with _ _ hp
            exact Option.noConfusion hp)
      else isFalse (by intro h; injection h with _ hd2 _; exact hd hd2)
    else isFalse (by intro h; injection h with hh2 _ _; exact hh hh2)

instance : DecidableEq Message := Message.decEq

def Message.header : Message → MessageHeader
  | .mk h _ _ => h

def Message.binary_data : Message → List Nat
  | .mk _ d _ => d

def Message.previous_message : Message → Option Message
  | .mk _ _ p => p

/-- `MessageHeader.size_bytes`. -/
def MessageHeader.size_bytes (_h : MessageHeader) : Nat := MESSAGE_HEADER_SIZE

/-- `Message.size_bytes = header.size_bytes + len(binary_data)`. -/
def Message.size_bytes (m : Message) : Nat :=
  MESSAGE_HEADER_SIZE + m.binary_data.length

/-- `MessageHeader.to_bytes(hash_key)`: the 26-byte field block followed by
the 8-byte keyed BLAKE2b tag over it. -/
def MessageHeader.to_bytes (C : Crypto) (hash_key : List Nat)
    (h : MessageHeader) : List Nat :=
  let out := Coerce.from_unsigned_integer32 h.message_id ++
    Coerce.from_unsigned_integer32 h.message_prev ++
    Coerce.from_unsigned_integer32 h.content_length ++
    Coerce.from_unsigned_integer16 h.content_type ++
    h.content_hash
  out ++ C.blake2b hash_key out MESSAGE_HEADER_DIGEST_SIZE

/-- `MessageHeader.from_bytes(binary_data, hash_key)`: length check, keyed
tag check, field parse, then the pydantic range/enum validation. -/
def MessageHeader.from_bytes (C : Crypto) (b hash_key : List Nat) :
    Option MessageHeader :=
  if b.length = MESSAGE_HEADER_SIZE then
    let expected := b.drop (MESSAGE_HEADER_SIZE - MESSAGE_HEADER_DIGEST_SIZE)
    let actual := C.blake2b hash_key
      (b.take (MESSAGE_HEADER_SIZE - MESSAGE_HEADER_DIGEST_SIZE))
      MESSAGE_HEADER_DIGEST_SIZE
    if actual = expected then
      match Coerce.to_unsigned_integer32 (b.take 4),
          Coerce.to_unsigned_integer32 ((b.drop 4).take 4),
          Coerce.to_unsigned_integer32 ((b.drop 8).take 4),
          Coerce.to_unsigned_integer16 ((b.drop 12).take 2) with
      | some mid, some mprev, some clen, some ct =>
        if inRangeId mid && inRangeClock mprev && inRangeClock clen &&
            isContentType ct then
          some ⟨mid, mprev, clen, ct, (b.drop 14).take MESSAGE_DIGEST_SIZE⟩
        else none
      | _, _, _, _ => none
    else none
  else none

/-- `Message.to_bytes(hash_key) = header.to_bytes(hash_key) + binary_data`. -/
def Message.to_bytes (C : Crypto) (hash_key : List Nat) (m : Message) :
    List Nat :=
  m.header.to_bytes C hash_key ++ m.binary_data

/-- Result of parsing a value from a byte stream.  `fail rest` carries the
stream remainder at the point the Python code raised (reads consume
`min(n, available)` bytes before the exception). -/
inductive ParseResult (α : Type) where
  | ok (val : α) (rest : List Nat)
  | fail (rest : List Nat)
deriving DecidableEq

/-- `Message.from_file(file_io, hash_key)`: read a 34-byte header, then
`content_length` payload bytes (possibly fewer if the stream is short,
exactly as Python's `read`), then check the keyless BLAKE2b-128 content
hash.  A parsed message always has `previous_message = None`. -/
def Message.parse (C : Crypto) (hash_key data : List Nat) :
    ParseResult Message :=
  match MessageHeader.from_bytes C (data.take MESSAGE_HEADER_SIZE) hash_key with
  | none => .fail (data.drop MESSAGE_HEADER_SIZE)
  | some h =>
    let rest := data.drop MESSAGE_HEADER_SIZE
    let body := rest.take h.content_length
    let rest2 := rest.drop h.content_length
    if C.blake2b [] body MESSAGE_DIGEST_SIZE = h.content_hash then
      .ok (Message.mk h body none) rest2
    else .fail rest2

/-- `Message.from_content(message_id, content)`: the Python constructor
dispatches on the runtime type of `content` (str → UTF-8 bytes / STRING,
bytes → BINARY, dict or BaseModel → `json.dumps` UTF-8 / JSON_DICT) and
then builds the message from the encoded bytes; here the caller passes
the encoded bytes together with the resulting content type. -/
def Message.from_content (C : Crypto) (message_id content_type : Nat)
    (data : List Nat) : Message :=
  Message.mk
    ⟨message_id, 0, data.length, content_type,
      C.blake2b [] data MESSAGE_DIGEST_SIZE⟩
    data none

/-- `Control` (`schemas/packet.py`). -/
structure Control where
  sender_clock_sender : Nat
  sender_clock_recipient : Nat
  sender_clock_out_of_order : List Nat
  nack_ids : List Nat
  recipient_clock_sender : Nat
deriving DecidableEq

/-- `Control.size_bytes`. -/
def Control.size_bytes (c : Control) : Nat :=
  4 * (c.sender_clock_out_of_order.length + c.nack_ids.length + 5) +
    HEADER_DIGEST_SIZE

/-- `Control.to_bytes()`: the u32 word sequence followed by the keyless
8-byte BLAKE2b tag over it. -/
def Control.to_bytes (C : Crypto) (c : Control) : List Nat :=
  let out := Coerce.from_unsigned_integer32 c.sender_clock_sender ++
    Coerce.from_unsigned_integer32 c.sender_clock_recipient ++
    Coerce.from_unsigned_integer32 c.sender_clock_out_of_order.length ++
    (c.sender_clock_out_of_order.map Coerce.from_unsigned_integer32).flatten ++
    Coerce.from_unsigned_integer32 c.nack_ids.length ++
    (c.nack_ids.map Coerce.from_unsigned_integer32).flatten ++
    Coerce.from_unsigned_integer32 c.recipient_clock_sender
  out ++ C.blake2b [] out HEADER_DIGEST_SIZE

/-- One `read_word()` of `Control.from_file`: read 4 bytes and decode a
u32; a short read consumes the remaining bytes and then fails. -/
def readWord (data : List Nat) : ParseResult Nat :=
  match Coerce.to_unsigned_integer32 (data.take 4) with
  | some n => .ok n (data.drop 4)
  | none => .fail (data.drop 4)

/-- `n` consecutive `read_word()` calls. -/
def readWords : Nat → List Nat → ParseResult (List Nat)
  | 0, data => .ok [] data
  | n + 1, data =>
    match readWord data with
    | .fail r => .fail r
    | .ok w r =>
      match readWords n r with
      | .fail r' => .fail r'
      | .ok ws r' => .ok (w :: ws) r'

/-- `Control.from_file(file_io)`: streaming word reads (the keyless
BLAKE2b hash object is updated with every word read, i.e. with the first
`data.length - r7.length` bytes of the stream), the 8-byte tag check
(`assert`), and the pydantic range validation performed by the `Control`
constructor. -/
def Control.parse (C : Crypto) (data : List Nat) : ParseResult Control :=
  match readWord data with
  | .fail r => .fail r
  | .ok scs r1 =>
  match readWord r1 with
  | .fail r => .fail r
  | .ok scr r2 =>
  match readWord r2 with
  | .fail r => .fail r
  | .ok nsacks r3 =>
  match readWords nsacks r3 with
  | .fail r => .fail r
  | .ok sacks r4 =>
  match readWord r4 with
  | .fail r => .fail r
  | .ok nnacks r5 =>
  match readWords nnacks r5 with
  | .fail r => .fail r
  | .ok nacks r6 =>
  match readWord r6 with
  | .fail r => .fail r
  | .ok rcs r7 =>
    let body := data.take (data.length - r7.length)
    let actual := C.blake2b [] body HEADER_DIGEST_SIZE
    let expected := r7.take HEADER_DIGEST_SIZE
    let r8 := r7.drop HEADER_DIGEST_SIZE
    if actual = expected then
      if inRangeClock scs && inRangeClock scr && inRangeClock rcs &&
          sacks.all inRangeId && nacks.all inRangeId then
        .ok ⟨scs, scr, sacks, nacks, rcs⟩ r8
      else .fail r8
    else .fail r8

/-- `PacketHeader` (`schemas/packet.py`).  UUIDs are their 16 raw bytes
and `packet_timestamp` is the whole-second UTC timestamp as an integer. -/
structure PacketHeader where
  sender_uuid : List Nat
  recipient_uuid : List Nat
  packet_id : Nat
  num_messages : Nat
  packet_timestamp : Int
  protocol_version : Nat
  hash_key : List Nat
deriving DecidableEq

/-- `PacketHeader.size_bytes`. -/
def PacketHeader.size_bytes (_h : PacketHeader) : Nat := PACKET_HEADER_SIZE

/-- `PacketHeader.to_bytes(secret_key)`: field block, encapsulated key
(whose random nonce is passed explicitly), keyed 8-byte BLAKE2b tag over
the preceding 92 bytes, and the final `assert len(out) == size_bytes`,
modelled as a guard. -/
def PacketHeader.to_bytes (C : Crypto) (nonce secret_key : List Nat)
    (h : PacketHeader) : Option (List Nat) :=
  match encrypt_key C nonce h.hash_key secret_key with
  | none => none
  | some encapsulated_key =>
    let out := Coerce.from_uuid h.sender_uuid ++
      Coerce.from_uuid h.recipient_uuid ++
      Coerce.from_unsigned_integer32 h.packet_id ++
      Coerce.from_unsigned_integer32 h.num_messages ++
      Coerce.from_datetime32 h.packet_timestamp ++
      Coerce.from_unsigned_integer32 h.protocol_version ++
      encapsulated_key
    let full := out ++ C.blake2b h.hash_key out HEADER_DIGEST_SIZE
    if full.length = PACKET_HEADER_SIZE then some full else none

/-- `PacketHeader.from_bytes(binary_data, secret_key)`: length check, key
decapsulation, keyed tag check over the first 92 bytes, field parse, and
the pydantic validation performed by the constructor. -/
def PacketHeader.from_bytes (C : Crypto) (b secret_key : List Nat) :
    Option PacketHeader :=
  if b.length = PACKET_HEADER_SIZE then
    match decrypt_key C ((b.drop 48).take TOKEN_LEN) secret_key with
    | none => none
    | some hash_key =>
      let expected := b.drop (PACKET_HEADER_SIZE - HEADER_DIGEST_SIZE)
      let actual := C.blake2b hash_key
        (b.take (PACKET_HEADER_SIZE - HEADER_DIGEST_SIZE)) HEADER_DIGEST_SIZE
      if actual = expected then
        match Coerce.to_uuid (b.take 16), Coerce.to_uuid ((b.drop 16).take 16),
            Coerce.to_unsigned_integer32 ((b.drop 32).take 4),
            Coerce.to_unsigned_integer32 ((b.drop 36).take 4),
            Coerce.to_datetime32 ((b.drop 40).take 4),
            Coerce.to_unsigned_integer32 ((b.drop 44).take 4) with
        | some su, some ru, some pid, some nm, some ts, some pv =>
          if inRangeId pid && inRangeClock nm && inRangeId pv then
            some ⟨su, ru, pid, nm, ts, pv, hash_key⟩
          else none
        | _, _, _, _, _, _ => none
      else none
  else none

/-- `Packet` (`schemas/packet.py`). -/
structure Packet where
  header : PacketHeader
  control : Option Control
  messages : List Message
deriving DecidableEq

/-- `Packet.size_bytes = header.size_bytes + control.size_bytes + sum of
message sizes` (the source dereferences `control` unconditionally, so it
is only meaningful for `control ≠ None`; `none` contributes 0 here). -/
def Packet.size_bytes (p : Packet) : Nat :=
  PACKET_HEADER_SIZE +
    (match p.control with
      | some c => c.size_bytes
      | none => 0) +
    (p.messages.map Message.size_bytes).sum

/-- `Packet.to_bytes(secret_key)`: the two leading `assert`s
(`len(messages) == num_messages`, `control is not None`) as guards, then
header, control and messages in order. -/
def Packet.to_bytes (C : Crypto) (nonce secret_key : List Nat) (p : Packet) :
    Option (List Nat) :=
  if p.messages.length = p.header.num_messages then
    match p.control with
    | none => none
    | some c =>
      match p.header.to_bytes C nonce secret_key with
      | none => none
      | some hb =>
        some (hb ++ c.to_bytes C ++
          (p.messages.map (Message.to_bytes C p.header.hash_key)).flatten)
  else none

/-- The message loop of `Packet.from_file`: parse up to `n` messages,
stopping (without error) at the first message that fails to parse. -/
def parseMessages (C : Crypto) (hash_key : List Nat) :
    Nat → List Nat → List Message × List Nat
  | 0, data => ([], data)
  | n + 1, data =>
    match Message.parse C hash_key data with
    | .fail r => ([], r)
    | .ok m r =>
      let (ms, r') := parseMessages C hash_key n r
      (m :: ms, r')

/-- `Packet.from_file(file_io, secret_key)`: parse the header from the
first `PACKET_HEADER_SIZE` bytes (failures propagate); then `try` the
control block, returning `control = None` and no messages on failure;
then `try` each message, returning the successfully-parsed prefix.
Returns the packet together with the unread remainder of the stream. -/
def Packet.from_file (C : Crypto) (secret_key data : List Nat) :
    Option (Packet × List Nat) :=
  match PacketHeader.from_bytes C (data.take PACKET_HEADER_SIZE) secret_key with
  | none => none
  | some h =>
    let rest := data.drop PACKET_HEADER_SIZE
    match Control.parse C rest with
    | .fail r => some (⟨h, none, []⟩, r)
    | .ok c r =>
      let (ms, r') := parseMessages C h.hash_key h.num_messages r
      some (⟨h, some c, ms⟩, r')

/-- `Packet.from_bytes(binary_data, secret_key)`: `from_file` on a
`BytesIO`, then `raise ValueError('extra unexpected data')` if any byte
remains. -/
def Packet.from_bytes (C : Crypto) (secret_key data : List Nat) :
    Option Packet :=
  match Packet.from_file C secret_key data with
  | none => none
  | some (p, rest) => if rest = [] then some p else none

/-! ## Layer-0 framing (`diode_bridge_v2/core/layer_0.py`) -/

def DELAY_ASSUME_WRITE_FINISHED_UNSUCCESSFULLY : Int := 1

/-- `layer_0.corrupt_my_file(path, ...)`: with probability 0.75 truncate
the file at a random offset and append a `0` byte, then flip each byte to
a random value with probability 0.0001.  The random draws are passed
explicitly: `truncateAt = some k` models the truncation branch firing
with offset `k`, and `bitrot` lists the `(index, value)` rewrites. -/
def corrupt_my_file (data : List Nat) (truncateAt : Option Nat)
    (bitrot : List (Nat × Nat)) : List Nat :=
  let d1 := match truncateAt with
    | some k => data.take k ++ [0]
    | none => data
  bitrot.foldl (fun d iv => d.set iv.1 iv.2) d1

/-- `BinaryWriter`: at `__post_init__` the file starts with the four zero
sentinel bytes; everything subsequently written lands after them (note
that the gzip writer is constructed over `_raw_writer`, the raw file
object, not over `_chacha20_writer`, so `body` is the gzip stream
itself).  `close()` computes `size = tell()`, seeks to 0, overwrites the
sentinel with the u32 BE size — and then unconditionally calls
`corrupt_my_file(self.path)` (the `if random.random() < 0.5:  # fixme:
remove in prod` guard is commented out in the source). -/
def binaryWriterCloseFile (body : List Nat) (truncateAt : Option Nat)
    (bitrot : List (Nat × Nat)) : List Nat :=
  let patched := Coerce.from_unsigned_integer32 (4 + body.length) ++ body
  corrupt_my_file patched truncateAt bitrot

/-- `BinaryReader.__post_init__` sentinel read: the first 4 bytes as a
u32 BE (`expected_total_size`); a file shorter than 4 bytes fails the
unpack. -/
def readSentinel (file : List Nat) : Option Nat :=
  Coerce.to_unsigned_integer32 (file.take 4)

/-! ## Messenger (`diode_bridge_v2/core/layer_1.py`) -/

def MULTIPART_LIMIT_SIZE_BYTES : Nat := 20

def PACKET_LIMIT_SIZE_BYTES : Nat := 200

def NACK_TRANSMIT_COUNT : Nat := 5

def RETRANSMISSION_TIMEOUT : Int := 5

/-- An element of the Python set `Messenger.nack_ids`.  The layer-1 code
inserts packet ids (ints); the controller's exception handler inserts
the filename-derived packet id, which is a `str` (it is never converted
with `int(...)`), so the set is heterogeneous. -/
inductive NackEntry where
  | num (n : Nat)
  | str (s : String)
deriving DecidableEq

/-- `OutboxItem` dataclass. -/
structure OutboxItem where
  message : Message
  packet_timestamp : Option Int := none
  packet_id : Option Nat := none
  acked : Option Int := none
deriving DecidableEq

/-- `InboxItem` dataclass. -/
structure InboxItem where
  message : Option Message := none
  packet_timestamp : Option Int := none
  acked : Option Int := none
  ack_acked : Option Int := none
deriving DecidableEq

/-- `Messenger` dataclass.  `nack_ids` (a Python set) is a duplicate-free
list; `_sent_nack_ids` (a `Counter`) is an association list in insertion
order. -/
structure Messenger where
  self_uuid : List Nat
  other_uuid : List Nat
  outbox : List OutboxItem
  inbox : List InboxItem
  inbox_unlinked_previous_messages : List (Nat × Nat)
  cached_clock_self : Nat
  cached_clock_other : Nat
  cached_other_clock_self : Nat
  nack_ids : List NackEntry
  sent_nack_ids : List (NackEntry × Nat)
  num_sent_packets : Nat
deriving DecidableEq

/-- `Messenger(self_uuid=… , other_uuid=…)` with all defaults. -/
def Messenger.init (self_uuid other_uuid : List Nat) : Messenger :=
  ⟨self_uuid, other_uuid, [], [], [], 0, 0, 0, [], [], 0⟩

/-- `set.add`: insert if absent. -/
def nackInsert (l : List NackEntry) (x : NackEntry) : List NackEntry :=
  if x ∈ l then l else l ++ [x]

/-- `Counter` lookup (first matching key). -/
def counterLookup : List (NackEntry × Nat) → NackEntry → Option Nat
  | [], _ => none
  | (k, v) :: rest, x => if k = x then some v else counterLookup rest x

/-- `self._sent_nack_ids[x] += 1`: increment, inserting `(x, 1)` for a
missing key (at the end, matching `Counter` insertion order). -/
def counterBump : List (NackEntry × Nat) → NackEntry → List (NackEntry × Nat)
  | [], x => [(x, 1)]
  | (k, v) :: rest, x =>
    if k = x then (k, v + 1) :: rest else (k, v) :: counterBump rest x

/-- The first loop of the NACK housekeeping in `create_packet`:
`for nack_id in self.nack_ids: self._sent_nack_ids[nack_id] += 1`. -/
def counterBumpAll (sent : List (NackEntry × Nat)) (nacks : List NackEntry) :
    List (NackEntry × Nat) :=
  nacks.foldl counterBump sent

/-- The second loop of the NACK housekeeping: after `nack_ids.clear()`,
each counted id with `times_sent > NACK_TRANSMIT_COUNT` is deleted and
every other id is re-added to `nack_ids`.  Returns the surviving counter
and the rebuilt `nack_ids` set. -/
def nackHousekeeping : List (NackEntry × Nat) →
    List (NackEntry × Nat) × List NackEntry
  | [] => ([], [])
  | (k, v) :: rest =>
    let (s, n) := nackHousekeeping rest
    if v > NACK_TRANSMIT_COUNT then (s, n)
    else ((k, v) :: s, if k ∈ n then n else k :: n)

/-- `sorted(self.nack_ids)`: raises `TypeError` (modelled `none`) when the
set mixes ints and strings; otherwise the sorted list of ids. -/
def sortedNackNums (l : List NackEntry) : Option (List Nat) :=
  if l.all fun e => match e with | .num _ => true | .str _ => false then
    some ((l.filterMap fun e =>
      match e with | .num n => some n | .str _ => none).insertionSort (· ≤ ·))
  else none

/-- Density `assert` of the `clock_self` property over
`range(start, len(outbox))`. -/
def outboxDense (outbox : List OutboxItem) (start : Nat) : Bool :=
  (List.range' start (outbox.length - start)).all fun i =>
    match outbox.get? i with
    | some it => it.message.header.message_id = i + 1
    | none => true

/-- The `clock_self` property: assert outbox density from the cached
cursor, then set the cursor to `len(outbox)` and return it.  `none`
models the `AssertionError` (the cursor is then left unchanged). -/
def Messenger.clock_self_run (m : Messenger) : Option (Nat × Messenger) :=
  if outboxDense m.outbox m.cached_clock_self then
    some (m.outbox.length, { m with cached_clock_self := m.outbox.length })
  else none

/-- The scan loop of the `clock_other` property: from index `i`, walk
over inbox items with a message (asserting their ids are dense) and stop
at the first empty slot; if the loop completes (or its range is empty),
the answer is `len(inbox)`.  `none` models the density `AssertionError`. -/
def clockOtherGo (inbox : List InboxItem) : Nat → Nat → Option Nat
  | _, 0 => some inbox.length
  | i, fuel + 1 =>
    match inbox.get? i with
    | none => some inbox.length
    | some it =>
      match it.message with
      | some msg =>
        if msg.header.message_id = i + 1 then clockOtherGo inbox (i + 1) fuel
        else none
      | none => some i

/-- The `clock_other` property: scan from the cached cursor and update
it. -/
def Messenger.clock_other_run (m : Messenger) : Option (Nat × Messenger) :=
  match clockOtherGo m.inbox m.cached_clock_other
      (m.inbox.length - m.cached_clock_other) with
  | none => none
  | some i => some (i, { m with cached_clock_other := i })

/-- The scan loop of the `other_clock_self` property: from index `i`,
the first not-yet-acked outbox index, `len(outbox)` if every scanned item
is acked (or the range is empty). -/
def otherClockSelfGo (outbox : List OutboxItem) : Nat → Nat → Nat
  | _, 0 => outbox.length
  | i, fuel + 1 =>
    match outbox.get? i with
    | none => outbox.length
    | some it => if it.acked = none then i else otherClockSelfGo outbox (i + 1) fuel

/-- The `other_clock_self` property: scan from the cached cursor and
update it (this property never raises). -/
def Messenger.other_clock_self_run (m : Messenger) : Nat × Messenger :=
  let v := otherClockSelfGo m.outbox m.cached_other_clock_self
    (m.outbox.length - m.cached_other_clock_self)
  (v, { m with cached_other_clock_self := v })

/-- `clock_out_of_order` (given the already-computed `clock_other`
value): message ids of the present messages above the contiguous
prefix. -/
def clockOutOfOrder (inbox : List InboxItem) (start : Nat) : List Nat :=
  (inbox.drop start).filterMap fun it => it.message.map fun msg => msg.header.message_id

/-- Replace a message's id (the `message.header.message_id = …`
assignments of `append_outbox_data`). -/
def setMsgId (m : Message) (i : Nat) : Message :=
  match m with
  | .mk h d p => .mk { h with message_id := i } d p

/-- Replace a message's `previous_message` link (the multipart linking
assignment of `packet_receive`). -/
def setMsgPrev (m : Message) (p : Option Message) : Message :=
  match m with
  | .mk h d _ => .mk h d p

/-- The multipart loop of `append_outbox_data`: cut the payload into
`MULTIPART_LIMIT_SIZE_BYTES`-sized fragments, each a fresh message whose
`message_prev` is the previous fragment's id, `MULTIPART_FRAGMENT` for
every fragment but the last, which carries the original content type.
The loop consumes at least one byte per round, so running it with
`fuel = length of the payload` (as `append_outbox_data` does) is exactly
the Python `while` loop. -/
def appendMultipartGo (C : Crypto) (origCt : Nat) :
    Nat → List Nat → List OutboxItem → Nat → List OutboxItem
  | 0, _, outbox, _ => outbox
  | _, [], outbox, _ => outbox
  | fuel + 1, b :: bs, outbox, prevId =>
    let data := (b :: bs).take MULTIPART_LIMIT_SIZE_BYTES
    let rest := (b :: bs).drop MULTIPART_LIMIT_SIZE_BYTES
    let mid := outbox.length + 1
    let part := Message.mk
      ⟨mid, prevId, data.length,
        (if rest = [] then origCt else ContentType.MULTIPART_FRAGMENT),
        C.blake2b [] data MESSAGE_DIGEST_SIZE⟩
      data none
    appendMultipartGo C origCt fuel rest (outbox ++ [⟨part, none, none, none⟩]) mid

/-- `Messenger.append_outbox_data(data)`.  The Python method dispatches
on the runtime type of `data` to obtain the encoded bytes and content
type (see `Message.from_content`); the caller passes those here.  A
payload of at most `MULTIPART_LIMIT_SIZE_BYTES` bytes is appended as a
single `OutboxItem`; larger payloads are fragmented.  The closing
`_ = self.clock_self` monotonicity check updates the `clock_self`
cursor (its `assert` cannot fire on the states this method produces;
on failure the appends would already have happened, so the state with
the appends is returned either way). -/
def Messenger.append_outbox_data (C : Crypto) (m : Messenger)
    (content_type : Nat) (data : List Nat) : Messenger :=
  let message := Message.from_content C (m.outbox.length + 1) content_type data
  if message.binary_data.length ≤ MULTIPART_LIMIT_SIZE_BYTES then
    { m with outbox := m.outbox ++
        [⟨setMsgId message (m.outbox.length + 1), none, none, none⟩] }
  else
    let outbox' := appendMultipartGo C message.header.content_type
      message.binary_data.length message.binary_data m.outbox 0
    let m' := { m with outbox := outbox' }
    match m'.clock_self_run with
    | some (_, m'') => m''
    | none => m'

/-- The message-selection loop of `create_packet` over
`self.outbox[self.other_clock_self:]`: skip acked items, skip items sent
less than `retransmission_timeout` ago, skip items whose size would push
`total_size_bytes` past `PACKET_LIMIT_SIZE_BYTES` — note that the source
never adds an accepted message's size to `total_size_bytes`, so `base`
stays `PACKET_HEADER_SIZE + control.size_bytes` for every check. -/
def selectMessages (rt now : Int) (base : Nat) : List OutboxItem → List Message
  | [] => []
  | it :: rest =>
    if it.acked ≠ none then selectMessages rt now base rest
    else if (match it.packet_timestamp with
        | some ts => decide (ts + rt > now)
        | none => false) then selectMessages rt now base rest
    else if base + it.message.size_bytes > PACKET_LIMIT_SIZE_BYTES then
      selectMessages rt now base rest
    else it.message :: selectMessages rt now base rest

/-- `Messenger.create_packet(retransmission_timeout)`.  `now` models
`get_utc_timestamp()` and `hashKey` the random per-packet hash key drawn
by the `PacketHeader` default factory.  Returns the packet (or `none` if
an assertion/validation raised) together with the state after the call;
on an exception the state reached at the raise point is returned, as in
Python. -/
def Messenger.create_packet (m : Messenger) (retransmission_timeout : Option Int)
    (now : Int) (hashKey : List Nat) : Option Packet × Messenger :=
  let rt := retransmission_timeout.getD RETRANSMISSION_TIMEOUT
  match m.clock_self_run with
  | none => (none, m)
  | some (cs, m1) =>
  match m1.clock_other_run with
  | none => (none, m1)
  | some (co, m2) =>
  let sacks := clockOutOfOrder m2.inbox co
  let (ocs, m3) := m2.other_clock_self_run
  match sortedNackNums m3.nack_ids with
  | none => (none, m3)
  | some nacks =>
  if inRangeClock cs && inRangeClock co && inRangeClock ocs &&
      sacks.all inRangeId && nacks.all inRangeId then
    let control : Control := ⟨cs, co, sacks, nacks, ocs⟩
    let total_size_bytes := PACKET_HEADER_SIZE + control.size_bytes
    if total_size_bytes < PACKET_LIMIT_SIZE_BYTES then
      let messages := selectMessages rt now total_size_bytes (m3.outbox.drop ocs)
      let sentBumped := counterBumpAll m3.sent_nack_ids m3.nack_ids
      let (sent', nacks') := nackHousekeeping sentBumped
      let m4 := { m3 with
        nack_ids := nacks'
        sent_nack_ids := sent'
        num_sent_packets := m3.num_sent_packets + 1 }
      if inRangeId m4.num_sent_packets && inRangeClock messages.length then
        (some ⟨⟨m4.self_uuid, m4.other_uuid, m4.num_sent_packets,
          messages.length, now, 2, hashKey⟩, some control, messages⟩, m4)
      else (none, m4)
    else (none, m3)
  else (none, m3)

/-- `for i in range(i0, i0 + fuel): if not inbox[i].acked: inbox[i].acked = ts`
(the self-ack loop of `packet_send`); stops with `false` at the
`IndexError` of an out-of-range access, keeping earlier updates. -/
def ackInboxGo (ts : Int) : List InboxItem → Nat → Nat → List InboxItem × Bool
  | inbox, _, 0 => (inbox, true)
  | inbox, i, fuel + 1 =>
    match inbox.get? i with
    | none => (inbox, false)
    | some it =>
      let it' := if it.acked = none then { it with acked := some ts } else it
      ackInboxGo ts (inbox.set i it') (i + 1) fuel

/-- The `sender_clock_out_of_order` loop of `packet_send`:
`assert inbox[i-1].message.header.message_id == i`, then first-writer
ack.  Stops with `false` on `IndexError`, on a missing message
(`AttributeError`) or on the failed `assert`. -/
def sackAckInbox (ts : Int) : List InboxItem → List Nat → List InboxItem × Bool
  | inbox, [] => (inbox, true)
  | inbox, i :: rest =>
    match inbox.get? (i - 1) with
    | none => (inbox, false)
    | some it =>
      match it.message with
      | none => (inbox, false)
      | some msg =>
        if msg.header.message_id = i then
          let it' := if it.acked = none then { it with acked := some ts } else it
          sackAckInbox ts (inbox.set (i - 1) it') rest
        else (inbox, false)

/-- The message loop of `packet_send`: stamp each not-yet-acked carried
message's outbox slot with the packet's timestamp and id. -/
def sendMarkOutbox (ts : Int) (pid : Nat) :
    List OutboxItem → List Message → List OutboxItem × Bool
  | outbox, [] => (outbox, true)
  | outbox, msg :: rest =>
    match outbox.get? (msg.header.message_id - 1) with
    | none => (outbox, false)
    | some it =>
      if it.acked ≠ none then sendMarkOutbox ts pid outbox rest
      else sendMarkOutbox ts pid
        (outbox.set (msg.header.message_id - 1)
          { it with packet_timestamp := some ts, packet_id := some pid })
        rest

/-- `Messenger.packet_send(packet)`.  The `Bool` is `true` iff the call
completed without an exception; on an exception the state reached at the
raise point is returned (uuid `KeyError`s raise before any mutation). -/
def Messenger.packet_send (m : Messenger) (p : Packet) : Messenger × Bool :=
  if p.header.sender_uuid ≠ m.self_uuid then (m, false)
  else if p.header.recipient_uuid ≠ m.other_uuid then (m, false)
  else
    match p.control with
    | none => (m, false)
    | some c =>
      match m.clock_other_run with
      | none => (m, false)
      | some (co, m1) =>
        let (inbox1, ok1) := ackInboxGo p.header.packet_timestamp m1.inbox co
          (c.sender_clock_recipient - co)
        if ok1 then
          let m2 := { m1 with
            inbox := inbox1
            cached_clock_other := c.sender_clock_recipient }
          let (inbox2, ok2) := sackAckInbox p.header.packet_timestamp m2.inbox
            c.sender_clock_out_of_order
          let m3 := { m2 with inbox := inbox2 }
          if ok2 then
            let (outbox1, ok3) := sendMarkOutbox p.header.packet_timestamp
              p.header.packet_id m3.outbox p.messages
            ({ m3 with outbox := outbox1 }, ok3)
          else (m3, false)
        else ({ m1 with inbox := inbox1 }, false)

/-- `for i in range(a, a + fuel): if not outbox[i].acked: outbox[i].acked = ts`
(the peer-ack loop of `packet_receive`). -/
def ackOutboxGo (ts : Int) : List OutboxItem → Nat → Nat → List OutboxItem × Bool
  | outbox, _, 0 => (outbox, true)
  | outbox, i, fuel + 1 =>
    match outbox.get? i with
    | none => (outbox, false)
    | some it =>
      let it' := if it.acked = none then { it with acked := some ts } else it
      ackOutboxGo ts (outbox.set i it') (i + 1) fuel

/-- The `sender_clock_out_of_order` loop of `packet_receive` on the
outbox. -/
def sackAckOutbox (ts : Int) : List OutboxItem → List Nat → List OutboxItem × Bool
  | outbox, [] => (outbox, true)
  | outbox, i :: rest =>
    match outbox.get? (i - 1) with
    | none => (outbox, false)
    | some it =>
      if it.message.header.message_id = i then
        let it' := if it.acked = none then { it with acked := some ts } else it
        sackAckOutbox ts (outbox.set (i - 1) it') rest
      else (outbox, false)

/-- `for i in range(rcs): if not inbox[i].ack_acked: inbox[i].ack_acked = ts`. -/
def ackAckInboxGo (ts : Int) : List InboxItem → Nat → Nat → List InboxItem × Bool
  | inbox, _, 0 => (inbox, true)
  | inbox, i, fuel + 1 =>
    match inbox.get? i with
    | none => (inbox, false)
    | some it =>
      let it' := if it.ack_acked = none then { it with ack_acked := some ts } else it
      ackAckInboxGo ts (inbox.set i it') (i + 1) fuel

/-- The NACK-application loop of `packet_receive`:
`for outbox_item in self.outbox[self.clock_other:]` (note: the slice
start really is the inbox cursor `clock_other` in the source), skipping
acked items and clearing `packet_id`/`packet_timestamp` of items whose
`packet_id` is in the received `nack_ids`. -/
def clearNacked (outbox : List OutboxItem) (start : Nat) (nacks : List Nat) :
    List OutboxItem :=
  outbox.take start ++ (outbox.drop start).map fun it =>
    if it.acked ≠ none then it
    else match it.packet_id with
      | some pid =>
        if pid ∈ nacks then { it with packet_id := none, packet_timestamp := none }
        else it
      | none => it

/-- `dict.__setitem__`: update the first occurrence or append. -/
def dictSet : List (Nat × Nat) → Nat → Nat → List (Nat × Nat)
  | [], k, v => [(k, v)]
  | (k', v') :: rest, k, v =>
    if k' = k then (k', v) :: rest else (k', v') :: dictSet rest k v

/-- The message-ingestion loop of `packet_receive`: first-writer-wins
store of each message (and registration of the `message_prev` link for
multipart fragments); stops with `false` on an out-of-range
`message_id`. -/
def ingestGo (ts : Int) : List InboxItem → List (Nat × Nat) → List Message →
    List InboxItem × List (Nat × Nat) × Bool
  | inbox, unl, [] => (inbox, unl, true)
  | inbox, unl, msg :: rest =>
    match inbox.get? (msg.header.message_id - 1) with
    | none => (inbox, unl, false)
    | some it =>
      if it.message ≠ none then ingestGo ts inbox unl rest
      else
        let unl' := if msg.header.message_prev > 0 then
          dictSet unl msg.header.message_id msg.header.message_prev else unl
        ingestGo ts
          (inbox.set (msg.header.message_id - 1)
            { it with message := some msg, packet_timestamp := some ts })
          unl' rest

/-- The multipart-linking loop of `packet_receive`: iterate a snapshot of
the unlinked map; whenever the previous fragment's message is present,
set the fragment's `previous_message` and delete the map entry. -/
def linkGo : List InboxItem → List (Nat × Nat) → List (Nat × Nat) →
    List InboxItem × List (Nat × Nat) × Bool
  | inbox, live, [] => (inbox, live, true)
  | inbox, live, (mid, pid) :: rest =>
    match inbox.get? (pid - 1) with
    | none => (inbox, live, false)
    | some pit =>
      match pit.message with
      | none => linkGo inbox live rest
      | some pmsg =>
        match inbox.get? (mid - 1) with
        | none => (inbox, live, false)
        | some mit =>
          match mit.message with
          | none => (inbox, live, false)
          | some mmsg =>
            linkGo (inbox.set (mid - 1)
                { mit with message := some (setMsgPrev mmsg (some pmsg)) })
              (live.filter fun kv => kv.1 ≠ mid) rest

/-- `Messenger.packet_receive(packet)`.  The `Bool` is `true` iff the
call completed without an exception; otherwise the state reached at the
raise point is returned (a packet with `control = None` raises
`AttributeError` on the very first control access, before any
mutation). -/
def Messenger.packet_receive (m : Messenger) (p : Packet) : Messenger × Bool :=
  if p.header.sender_uuid ≠ m.other_uuid then (m, false)
  else if p.header.recipient_uuid ≠ m.self_uuid then (m, false)
  else
    match p.control with
    | none => (m, false)
    | some c =>
      let m1 := { m with
        inbox := m.inbox ++
          List.replicate (c.sender_clock_sender - m.inbox.length)
            (⟨none, none, none, none⟩ : InboxItem) }
      let (ocs, m2) := m1.other_clock_self_run
      let (outbox1, ok1) := ackOutboxGo p.header.packet_timestamp m2.outbox ocs
        (c.sender_clock_recipient - ocs)
      if ok1 then
        let m3 := { m2 with
          outbox := outbox1
          cached_other_clock_self := c.sender_clock_recipient }
        let (outbox2, ok2) := sackAckOutbox p.header.packet_timestamp m3.outbox
          c.sender_clock_out_of_order
        let m4 := { m3 with outbox := outbox2 }
        if ok2 then
          let (inbox1, ok3) := ackAckInboxGo p.header.packet_timestamp m4.inbox 0
            c.recipient_clock_sender
          let m5 := { m4 with inbox := inbox1 }
          if ok3 then
            match (if c.nack_ids ≠ [] then
                (match m5.clock_other_run with
                  | none => none
                  | some (co, m6) =>
                    some { m6 with outbox := clearNacked m6.outbox co c.nack_ids })
              else some m5) with
            | none => (m5, false)
            | some m7 =>
              let (inbox2, unl', ok4) := ingestGo p.header.packet_timestamp
                m7.inbox m7.inbox_unlinked_previous_messages p.messages
              let m8 := { m7 with
                inbox := inbox2
                inbox_unlinked_previous_messages := unl' }
              if ok4 then
                let (inbox3, live', ok5) := linkGo m8.inbox
                  m8.inbox_unlinked_previous_messages
                  m8.inbox_unlinked_previous_messages
                ({ m8 with
                  inbox := inbox3
                  inbox_unlinked_previous_messages := live' }, ok5)
              else (m8, false)
          else (m5, false)
        else (m4, false)
      else ({ m2 with outbox := outbox1 }, false)

/-! ## Controller read loop (`diode_bridge_v2/core/controller.py`) -/

/-- One iteration of `Server._try_read_input_files` for a packet that was
already decoded by `Packet.from_file` and addressed to this server:
deliver it via `packet_receive`; afterwards NACK it when
`packet.header.num_messages < len(packet.messages)` (the source's
comparison, as written); any exception from `packet_receive` is caught
and the *filename-derived* packet id — a `str` — is added to
`nack_ids`. -/
def controllerReadPacket (m : Messenger) (p : Packet)
    (filename_packet_id : String) : Messenger :=
  match m.packet_receive p with
  | (m', true) =>
    if p.header.num_messages < p.messages.length then
      { m' with nack_ids := nackInsert m'.nack_ids (.num p.header.packet_id) }
    else m'
  | (m', false) =>
    { m' with nack_ids := nackInsert m'.nack_ids (.str filename_packet_id) }

/-! ## Laws of the external cryptographic library, and concrete instances -/

/-- Laws the real primitives satisfy and on which the codec relies:
BLAKE2b digests have the requested length, and ChaCha20-Poly1305
decryption inverts encryption under the same key and nonce (with a
16-byte authentication tag appended by encryption). -/
structure CryptoOK (C : Crypto) : Prop where
  blake2b_length : ∀ key data n, (C.blake2b key data n).length = n
  aead_roundtrip : ∀ key nonce pt, C.aeadDecrypt key nonce (C.aeadEncrypt key nonce pt) = some pt
  aead_length : ∀ key nonce pt, (C.aeadEncrypt key nonce pt).length = pt.length + 16

/-- A trivially computable stand-in for the external primitives, used to
evaluate the development on concrete inputs.  It satisfies `CryptoOK`. -/
def trivialCrypto : Crypto where
  blake2b := fun _key data n => List.replicate n (data.length % 256)
  aeadEncrypt := fun _key _nonce pt => pt ++ List.replicate 16 0
  aeadDecrypt := fun _key _nonce ct => some (ct.take (ct.length - 16))

def uA : List Nat := List.replicate 16 1

def uB : List Nat := List.replicate 16 2

def hk0 : List Nat := List.replicate 16 5

def s0 : List Nat := List.replicate 32 4

def nonce0 : List Nat := List.replicate 12 3

def emptyPacket : Packet := ⟨⟨[], [], 0, 0, 0, 0, []⟩, none, []⟩

def sampleMsg : Message := Message.from_content trivialCrypto 1 ContentType.BINARY [9]

/-! ## Wire-validity predicates (the ranges enforced by the pydantic models) -/

/-- The `PacketHeader` field constraints: 16-byte uuids, `packet_id` and
`protocol_version` in `[1, MAX_INT_32]`, `num_messages` in
`[0, MAX_INT_32]`, an i32-representable whole-second timestamp and a
16-byte hash key. -/
def headerWireValid (h : PacketHeader) : Bool :=
  h.sender_uuid.length = 16 && h.recipient_uuid.length = 16 &&
  inRangeId h.packet_id && inRangeClock h.num_messages &&
  decide (-2147483648 ≤ h.packet_timestamp) &&
  decide (h.packet_timestamp < 2147483648) &&
  inRangeId h.protocol_version && h.hash_key.length = HASH_KEY_LEN

/-- The `Control` field constraints: clocks in `[0, MAX_INT_32]`, listed
ids in `[1, MAX_INT_32]`. -/
def controlWireValid (c : Control) : Bool :=
  inRangeClock c.sender_clock_sender && inRangeClock c.sender_clock_recipient &&
  inRangeClock c.recipient_clock_sender &&
  c.sender_clock_out_of_order.all inRangeId && c.nack_ids.all inRangeId

/-- The `MessageHeader` field constraints. -/
def messageWireValid (msg : Message) : Bool :=
  inRangeId msg.header.message_id && inRangeClock msg.header.message_prev &&
  inRangeClock msg.header.content_length && isContentType msg.header.content_type &&
  msg.header.content_hash.length = MESSAGE_DIGEST_SIZE

/-- The validity preconditions of the round-trip claim: `control` is not
`None`, `num_messages` matches the message count and every field is in
its wire range. -/
def packetWireValid (p : Packet) : Bool :=
  headerWireValid p.header &&
  (match p.control with
    | some c => controlWireValid c
    | none => false) &&
  p.messages.length = p.header.num_messages &&
  p.messages.all messageWireValid

/-- Codec-consistency of a message, beyond the field ranges:
`content_length` is the actual payload length, `content_hash` is the
actual BLAKE2b-128 digest of the payload, and the in-memory
`previous_message` link is unset.  (`Message.from_content` establishes
all three.) -/
def messageCodecConsistent (C : Crypto) (msg : Message) : Bool :=
  msg.header.content_length = msg.binary_data.length &&
  msg.header.content_hash = C.blake2b [] msg.binary_data MESSAGE_DIGEST_SIZE &&
  msg.previous_message = none

/-! ## Iterated `create_packet` traces (for the NACK-decay analysis) -/

/-- Iterate `create_packet` (with per-call timestamp and hash-key
streams), collecting each call's result. -/
def createTrace : Messenger → (Nat → Int) → (Nat → List Nat) → Nat →
    List (Option Packet)
  | _, _, _, 0 => []
  | m, now, hk, n + 1 =>
    let r := m.create_packet none (now 0) (hk 0)
    r.1 :: createTrace r.2 (fun i => now (i + 1)) (fun i => hk (i + 1)) n

/-- Whether a `create_packet` result transmitted a NACK for packet id
`x`. -/
def emitsNack (x : Nat) (op : Option Packet) : Bool :=
  match op with
  | some p =>
    match p.control with
    | some c => x ∈ c.nack_ids
    | none => false
  | none => false

/-- Bound on the number of future transmissions of NACK id `x` from a
given state: 0/`NACK_TRANSMIT_COUNT + 1 - count` transmissions remain
depending on membership in `nack_ids` and the ageing counter. -/
def nackBudget (m : Messenger) (x : Nat) : Nat :=
  if NackEntry.num x ∈ m.nack_ids then
    match counterLookup m.sent_nack_ids (NackEntry.num x) with
    | none => NACK_TRANSMIT_COUNT + 1
    | some c => if c ≤ NACK_TRANSMIT_COUNT then NACK_TRANSMIT_COUNT + 1 - c else 1
  else
    match counterLookup m.sent_nack_ids (NackEntry.num x) with
    | none => 0
    | some c => if c ≤ NACK_TRANSMIT_COUNT then NACK_TRANSMIT_COUNT + 1 - c else 0

/-! ## Messenger operation sequences (for the write-once invariants) -/

/-- One public `Messenger` operation. -/
inductive MOp where
  | append (content_type : Nat) (data : List Nat)
  | create (rt : Option Int) (now : Int) (hashKey : List Nat)
  | send (p : Packet)
  | receive (p : Packet)

/-- Apply one operation, keeping the state a Python exception would have
left behind (see the individual methods). -/
def applyOp (C : Crypto) (m : Messenger) : MOp → Messenger
  | .append ct d => m.append_outbox_data C ct d
  | .create rt now hk => (m.create_packet rt now hk).2
  | .send p => (m.packet_send p).1
  | .receive p => (m.packet_receive p).1

/-- Apply a sequence of operations. -/
def runOps (C : Crypto) (m : Messenger) (ops : List MOp) : Messenger :=
  ops.foldl (applyOp C) m

/-- Constraints pydantic already enforces on every real `Packet` value:
listed out-of-order ids and message ids are at least 1 (`conint(ge=1)`),
so the `i - 1` indexing of the source is the plain subtraction modelled
here. -/
def packetOK (p : Packet) : Bool :=
  (match p.control with
    | some c => c.sender_clock_out_of_order.all fun i => 1 ≤ i
    | none => true) &&
  p.messages.all fun msg => 1 ≤ msg.header.message_id

/-- Validity of an operation (send/receive must carry valid packets). -/
def opOK : MOp → Bool
  | .append _ _ => true
  | .create _ _ _ => true
  | .send p => packetOK p
  | .receive p => packetOK p

/-- The wire content of a message: everything except the in-memory
`previous_message` link. -/
def msgCore (m : Message) : MessageHeader × List Nat :=
  (m.header, m.binary_data)

/-- Write-once stability of one outbox slot: a non-null `acked` is never
changed. -/
def outboxItemStable (a b : OutboxItem) : Prop :=
  a.acked ≠ none → b.acked = a.acked

/-- Write-once stability of one inbox slot: a non-null `message` keeps
its wire content (only its `previous_message` link may be set by
multipart linking), and a non-null `ack_acked` is never changed. -/
def inboxItemStable (a b : InboxItem) : Prop :=
  (∀ ma, a.message = some ma →
    ∃ mb, b.message = some mb ∧ msgCore mb = msgCore ma) ∧
  (a.ack_acked ≠ none → b.ack_acked = a.ack_acked)

/-- Stability of a whole state: every existing outbox and inbox slot
still exists and is stable. -/
def messengerStable (a b : Messenger) : Prop :=
  (∀ i it, a.outbox.get? i = some it →
    ∃ it', b.outbox.get? i = some it' ∧ outboxItemStable it it') ∧
  (∀ i it, a.inbox.get? i = some it →
    ∃ it', b.inbox.get? i = some it' ∧ inboxItemStable it it')

/-! ## Claim-level concrete scenarios -/

/-- C3/C8 scenario: a fresh messenger.  For C8, appending a 60-byte
payload yields three 20-byte fragments. -/
def c8_messenger : Messenger :=
  (Messenger.init uA uB).append_outbox_data trivialCrypto ContentType.BINARY
    (List.replicate 60 7)

def c8_run : Option Packet × Messenger := c8_messenger.create_packet none 0 hk0

def c8_packet : Packet := c8_run.1.getD emptyPacket

/-- C6 scenario: a fresh messenger with foreign packet id 7 freshly
inserted into `nack_ids`. -/
def c6_messenger : Messenger :=
  { Messenger.init uA uB with nack_ids := [NackEntry.num 7] }

/-- C7 scenario: messenger `A` with one sent, un-acked message. -/
def c7_start : Messenger :=
  (Messenger.init uA uB).append_outbox_data trivialCrypto ContentType.STRING [120]

def c7_created : Option Packet × Messenger := c7_start.create_packet none 0 hk0

def c7_sent : Messenger :=
  ((c7_created.2).packet_send (c7_created.1.getD emptyPacket)).1

/-- C7 scenario: the peer's message 1, which fills `inbox[0]` and makes
`clock_other = 1`. -/
def c7_msg_packet : Packet :=
  ⟨⟨uB, uA, 1, 1, 0, 2, hk0⟩, some ⟨1, 0, [], [], 0⟩, [sampleMsg]⟩

def c7_mid : Messenger := (c7_sent.packet_receive c7_msg_packet).1

/-- C7 scenario: the peer NACKs packet 1 (which carried our un-acked
message). -/
def c7_nack_packet : Packet :=
  ⟨⟨uB, uA, 2, 0, 0, 2, hk0⟩, some ⟨1, 0, [], [1], 0⟩, []⟩

def c7_final : Messenger × Bool := c7_mid.packet_receive c7_nack_packet

/-- C5 scenario: the receiving messenger. -/
def c5_messenger : Messenger := Messenger.init uB uA

/-- C5 scenario: a decoded partial packet — header announces 2 messages
but only 1 parsed (exactly what `Packet.from_file` returns after a
trailing message fails). -/
def c5_short_packet : Packet :=
  ⟨⟨uA, uB, 3, 2, 0, 2, hk0⟩, some ⟨1, 0, [], [], 0⟩, [sampleMsg]⟩

/-- C5 scenario: a decoded packet whose control block failed to parse. -/
def c5_noctl_packet : Packet := ⟨⟨uA, uB, 3, 2, 0, 2, hk0⟩, none, []⟩

/-- C9 scenario: the receiving messenger. -/
def c9_messenger : Messenger := Messenger.init uB uA

/-- C9 scenario: multipart fragment 2 (with `message_prev = 1`),
delivered first. -/
def c9_frag2 : Message :=
  Message.mk ⟨2, 1, 1, ContentType.BINARY, List.replicate 16 0⟩ [42] none

def c9_packet_first : Packet :=
  ⟨⟨uA, uB, 1, 1, 0, 2, hk0⟩, some ⟨2, 0, [], [], 0⟩, [c9_frag2]⟩

def c9_mid : Messenger := (c9_messenger.packet_receive c9_packet_first).1

/-- C9 scenario: fragment 1 arrives next; the linking pass then mutates
the already-stored fragment 2. -/
def c9_frag1 : Message :=
  Message.mk ⟨1, 0, 1, ContentType.MULTIPART_FRAGMENT, List.replicate 16 0⟩ [41] none

def c9_packet_second : Packet :=
  ⟨⟨uA, uB, 2, 1, 0, 2, hk0⟩, some ⟨2, 0, [], [], 0⟩, [c9_frag1]⟩

def c9_final : Messenger := (c9_mid.packet_receive c9_packet_second).1

/-- C1 counterexample: a wire-valid, hash-consistent message that carries
an in-memory `previous_message` link. -/
def c1_linked_msg : Message :=
  Message.mk ⟨1, 0, 3, ContentType.BINARY, trivialCrypto.blake2b [] [9, 8, 7] 16⟩
    [9, 8, 7] (some sampleMsg)

def c1_packet : Packet :=
  ⟨⟨uA, uB, 1, 1, 0, 2, hk0⟩, some ⟨2, 0, [5], [4], 1⟩, [c1_linked_msg]⟩

/-- C1 counterexample: what the round trip actually returns — the same
packet with the `previous_message` link stripped. -/
def c1_packet_stripped : Packet :=
  ⟨⟨uA, uB, 1, 1, 0, 2, hk0⟩, some ⟨2, 0, [5], [4], 1⟩,
    [Message.mk ⟨1, 0, 3, ContentType.BINARY, trivialCrypto.blake2b [] [9, 8, 7] 16⟩
      [9, 8, 7] none]⟩

/-- C4 witness scenario: a concrete header whose encoding is followed by
nothing, so the control block fails to parse. -/
def c4_header : PacketHeader := ⟨uA, uB, 1, 1, 0, 2, hk0⟩

def c4_header_bytes : List Nat :=
  (c4_header.to_bytes trivialCrypto nonce0 s0).getD []

/-- A chain of `k` successful message parses (the successfully-parsed
prefix of a packet's message section). -/
inductive MsgChain (C : Crypto) (hash_key : List Nat) :
    List Nat → List Message → List Nat → Prop where
  | nil (r : List Nat) : MsgChain C hash_key r [] r
  | cons {r r' r'' : List Nat} {msg : Message} {ms : List Message} :
      Message.parse C hash_key r = .ok msg r' →
      MsgChain C hash_key r' ms r'' →
      MsgChain C hash_key r (msg :: ms) r''



/-- Pointwise evolution of an outbox list: every slot survives and its
`acked` is write-once. -/
def outboxEvolves (l l' : List OutboxItem) : Prop :=
  ∀ j it, l.get? j = some it →
    ∃ it', l'.get? j = some it' ∧ outboxItemStable it it'

/-- Pointwise evolution of an inbox list: every slot survives, its
`message` keeps its wire content once set and its `ack_acked` is
write-once. -/
def inboxEvolves (l l' : List InboxItem) : Prop :=
  ∀ j it, l.get? j = some it →
    ∃ it', l'.get? j = some it' ∧ inboxItemStable it it'

/-- C10 scenario: two secret keys agreeing on their first 32 bytes but
differing beyond them. -/
def c10_secret_a : List Nat := s0 ++ [7]

def c10_secret_b : List Nat := s0 ++ [8, 9]

def c10_token : List Nat :=
  (encrypt_key trivialCrypto nonce0 hk0 c10_secret_a).getD []

/-! # Theorems -/

/-! ## Coercion round-trip laws -/

theorem Coerce.from_unsigned_integer32_length (n : Nat) :
    (from_unsigned_integer32 n).length = 4 := rfl

theorem Coerce.from_unsigned_integer16_length (n : Nat) :
    (from_unsigned_integer16 n).length = 2 := rfl

theorem Coerce.to_from_unsigned_integer32 (n : Nat) (h : n < 4294967296) :
    to_unsigned_integer32 (from_unsigned_integer32 n) = some n := by
  simp only [from_unsigned_integer32, to_unsigned_integer32, Option.some.injEq]
  omega

theorem Coerce.to_from_unsigned_integer16 (n : Nat) (h : n < 65536) :
    to_unsigned_integer16 (from_unsigned_integer16 n) = some n := by
  simp only [from_unsigned_integer16, to_unsigned_integer16, Option.some.injEq]
  omega

theorem Coerce.to_from_datetime32 (t : Int) (h1 : -2147483648 ≤ t) (h2 : t < 2147483648) :
    to_datetime32 (from_datetime32 t) = some t := by
  rw [from_datetime32, to_datetime32,
    Coerce.to_from_unsigned_integer32 _ (by omega)]
  simp only [Option.some.injEq]
  split <;> omega

/-! ## Helper facts about the concrete crypto instance -/

theorem trivialCrypto_ok : CryptoOK trivialCrypto := by
  refine ⟨fun key data n => by simp [trivialCrypto],
    fun key nonce pt => by simp [trivialCrypto],
    fun key nonce pt => by simp [trivialCrypto]⟩

/-! ## C10 -/

/-- Claim C10: `decrypt_key` depends only on the first 32 bytes of the
secret key: for secret keys agreeing on their first 32 bytes the results
coincide (both fail or both return the same hash key), and consequently
`decrypt_key(encrypt_key(k, s), s') = k` whenever the AEAD satisfies its
inverse law, even if `s` and `s'` differ beyond byte 32. -/
theorem decrypt_key_uses_first_32_bytes (C : Crypto) (t s s' : List Nat)
    (hss : s.take 32 = s'.take 32) :
    decrypt_key C t s = decrypt_key C t s' ∧
    ∀ k nonce tok, k.length = HASH_KEY_LEN → nonce.length = 12 →
      (∀ key n p, C.aeadDecrypt key n (C.aeadEncrypt key n p) = some p) →
      encrypt_key C nonce k s = some tok →
      decrypt_key C tok s' = some k := by
  constructor
  · unfold decrypt_key
    rw [hss]
  · intro k nonce tok hk hn hlaw henc
    unfold encrypt_key at henc
    rw [if_pos hk] at henc
    dsimp only [] at henc
    split at henc
    · rename_i hlen
      injection henc with henc
      subst henc
      unfold decrypt_key
      rw [if_pos (by simp [List.length_append, hn, hlen, TOKEN_LEN])]
      rw [List.take_left' hn, List.drop_left' hn, ← hss, hlaw]
      simp [hk]
    · exact absurd henc (by simp)

/-- Witness for C10 at concrete inputs: a token wrapped under
`c10_secret_a` unwraps under `c10_secret_b`, which differs beyond byte
32. -/
theorem decrypt_key_uses_first_32_bytes_witness :
    decrypt_key trivialCrypto c10_token c10_secret_b = some hk0 :=
  (decrypt_key_uses_first_32_bytes trivialCrypto c10_token c10_secret_a
    c10_secret_b (by decide)).2 hk0 nonce0 c10_token (by decide) (by decide)
    (fun key n p => by simp [trivialCrypto]) (by decide)

/-! ## C2 -/

/-- Claim C2 (code bug): after `BinaryWriter.close()` the file need not
carry a non-zero size sentinel followed by the encrypted body, because
`close()` unconditionally ends with `corrupt_my_file(self.path)` (its
`random.random() < 0.5` guard is commented out with `# fixme: remove in
prod`).  Without the corruption call the file would be the size sentinel
followed by the body (here `[1, 2, 3]`, total size 7); when the
truncation branch fires at offset 0 — probability 0.75 × 1/(size+1) —
the closed file is the single byte `[0]`, whose sentinel cannot even be
read. -/
theorem binaryWriter_close_corrupts_file :
    binaryWriterCloseFile [1, 2, 3] none [] =
      Coerce.from_unsigned_integer32 7 ++ [1, 2, 3] ∧
    binaryWriterCloseFile [1, 2, 3] (some 0) [] = [0] ∧
    readSentinel (binaryWriterCloseFile [1, 2, 3] none []) = some 7 ∧
    readSentinel (binaryWriterCloseFile [1, 2, 3] (some 0) []) = none := by
  exact ⟨rfl, rfl, rfl, rfl⟩

/-! ## C3 -/

/-- Claim C3 (code bug): `MULTIPART_LIMIT_SIZE_BYTES` is 20 bytes, not
the 20 MiB its own comment (`# * 1024 * 1024  # 20 MiB`) and the spec
state: the multiplier is commented out in the source.  Consequently a
21-byte payload — far below 20 MiB — is already fragmented into two
outbox items instead of being appended as a single one.  (The behaviour
`length ≤ MULTIPART_LIMIT_SIZE_BYTES → exactly one item` itself does
hold, relative to the 20-byte constant: the third conjunct shows a
20-byte payload appends exactly one item.) -/
theorem multipart_limit_is_20_bytes_not_20_mib :
    MULTIPART_LIMIT_SIZE_BYTES = 20 ∧
    MULTIPART_LIMIT_SIZE_BYTES ≠ 20 * 1024 * 1024 ∧
    ((Messenger.init uA uB).append_outbox_data trivialCrypto
      ContentType.BINARY (List.replicate 20 7)).outbox.length = 1 ∧
    ((Messenger.init uA uB).append_outbox_data trivialCrypto
      ContentType.BINARY (List.replicate 21 7)).outbox.length = 2 := by
  exact ⟨rfl, by decide, by decide, by decide⟩

/-! ## C5 -/

/-- Claim C5 (code bug): a decoded partial packet is not NACKed.  For a
packet with `num_messages = 2` but only 1 parsed message, delivery via
the controller's read loop completes but its packet id is not inserted
into `nack_ids` (the controller tests the inverted comparison
`packet.header.num_messages < len(packet.messages)`, which is never true
for a truncated packet, despite its own comment `# nack incomplete
packets`).  For a packet with `control = None`, `packet_receive` itself
raises (`Bool` result `false`), and the handler inserts the
filename-derived id — the *string* `"3"` — so the integer
`packet.header.packet_id = 3` is still not a member of `nack_ids`. -/
theorem short_packet_not_nacked :
    c5_short_packet.header.num_messages = 2 ∧
    c5_short_packet.messages.length = 1 ∧
    (c5_messenger.packet_receive c5_short_packet).2 = true ∧
    (controllerReadPacket c5_messenger c5_short_packet "3").nack_ids = [] ∧
    (c5_messenger.packet_receive c5_noctl_packet).2 = false ∧
    (controllerReadPacket c5_messenger c5_noctl_packet "3").nack_ids =
      [NackEntry.str "3"] ∧
    ¬ NackEntry.num 3 ∈ (controllerReadPacket c5_messenger c5_noctl_packet "3").nack_ids := by
  refine ⟨rfl, rfl, by decide, by decide, by decide, by decide, by decide⟩

/-! ## C7 -/

/-- Claim C7 (code bug): applying a received NACK misses outbox items
below `clock_other`.  Here `c7_mid` has one un-acked outbox item with
`packet_id = 1` and `packet_timestamp = 0`, and `clock_other = 1`
(because `inbox[0]` holds the peer's message 1).  Receiving
`c7_nack_packet`, whose `control.nack_ids = [1]`, should clear that
item's `packet_id`/`packet_timestamp`, but the source iterates
`self.outbox[self.clock_other:]` — the inbox cursor applied to the
outbox — so the slice is empty and both fields survive. -/
theorem nack_skips_outbox_below_clock_other :
    c7_mid.outbox.map (fun it => (it.acked, it.packet_id, it.packet_timestamp)) =
      [(none, some 1, some 0)] ∧
    (c7_mid.clock_other_run).map (fun r => r.1) = some 1 ∧
    c7_nack_packet.control.map Control.nack_ids = some [1] ∧
    c7_final.2 = true ∧
    (c7_final.1).outbox.map (fun it => (it.packet_id, it.packet_timestamp)) =
      [(some 1, some 0)] := by
  refine ⟨by decide, by decide, rfl, by decide, by decide⟩

/-! ## C8 -/

theorem selectMessages_size_le (rt now : Int) (base : Nat)
    (items : List OutboxItem) :
    ∀ msg ∈ selectMessages rt now base items,
      base + msg.size_bytes ≤ PACKET_LIMIT_SIZE_BYTES := by
  induction items with
  | nil => intro msg hm; simp [selectMessages] at hm
  | cons it rest ih =>
    intro msg hm
    unfold selectMessages at hm
    split at hm
    · exact ih msg hm
    · split at hm
      · exact ih msg hm
      · split at hm
        · exact ih msg hm
        · rename_i hsz
          rcases List.mem_cons.mp hm with hh | ht
          · subst hh; omega
          · exact ih msg ht

/-- Amended C8: each message of a packet produced by `create_packet`
individually fits with the header and control under
`PACKET_LIMIT_SIZE_BYTES` (and header plus control alone fit strictly);
the loop never accumulates the accepted sizes, so only this per-message
bound holds — the packet's total `size_bytes` can exceed the cap (see
the counterexample). -/
theorem create_packet_single_message_bound (m : Messenger) (rt : Option Int)
    (now : Int) (hk : List Nat) (p : Packet) (m' : Messenger)
    (h : m.create_packet rt now hk = (some p, m')) :
    ∃ c, p.control = some c ∧
      PACKET_HEADER_SIZE + c.size_bytes < PACKET_LIMIT_SIZE_BYTES ∧
      ∀ msg ∈ p.messages,
        PACKET_HEADER_SIZE + c.size_bytes + msg.size_bytes ≤
          PACKET_LIMIT_SIZE_BYTES := by
  simp only [Messenger.create_packet] at h
  split at h
  · simp at h
  · split at h
    · simp at h
    · split at h
      · simp at h
      · split at h
        · split at h
          · split at h
            · rename_i hrange hsz hid
              injection h with h1 h2
              injection h1 with h1
              subst h1
              refine ⟨_, rfl, hsz, ?_⟩
              exact selectMessages_size_le _ _ _ _
            · simp at h
          · simp at h
        · simp at h

/-- Counterexample to C8: starting from a fresh messenger, appending a
60-byte payload (three 20-byte fragments, each un-acked and never sent)
and calling `create_packet` yields a packet satisfying the claim's
precondition (header plus control fit: 100 + 28 < 200) whose three
messages are all accepted — each passes the non-accumulating size check
individually — for a total `size_bytes` of 302, not strictly below
`PACKET_LIMIT_SIZE_BYTES = 200`. -/
theorem create_packet_total_exceeds_limit :
    c8_run.1 = some c8_packet ∧
    c8_packet.control.map
      (fun c => PACKET_HEADER_SIZE + c.size_bytes) = some 128 ∧
    c8_packet.messages.length = 3 ∧
    c8_packet.size_bytes = 302 ∧
    ¬ c8_packet.size_bytes < PACKET_LIMIT_SIZE_BYTES := by
  refine ⟨by decide, by decide, by decide, by decide, by decide⟩

/-- Witness for the amended C8 bound at the concrete scenario. -/
theorem create_packet_single_message_bound_witness :
    ∃ c, c8_packet.control = some c ∧
      PACKET_HEADER_SIZE + c.size_bytes < PACKET_LIMIT_SIZE_BYTES ∧
      ∀ msg ∈ c8_packet.messages,
        PACKET_HEADER_SIZE + c.size_bytes + msg.size_bytes ≤
          PACKET_LIMIT_SIZE_BYTES :=
  create_packet_single_message_bound c8_messenger none 0 hk0 c8_packet
    c8_run.2 (by decide)

/-! ## C6: counter and housekeeping lemmas -/

theorem counterLookup_eq_none_of_not_mem (s : List (NackEntry × Nat))
    (k : NackEntry) (h : k ∉ s.map Prod.fst) : counterLookup s k = none := by
  induction s with
  | nil => rfl
  | cons e rest ih =>
    simp only [List.map_cons, List.mem_cons] at h
    push_neg at h
    simp only [counterLookup]
    rw [if_neg (fun he => h.1 he.symm)]
    exact ih h.2

theorem counterLookup_bump_self (s : List (NackEntry × Nat)) (k : NackEntry) :
    counterLookup (counterBump s k) k =
      some ((counterLookup s k).getD 0 + 1) := by
  induction s with
  | nil => simp [counterBump, counterLookup]
  | cons e rest ih =>
    by_cases he : e.1 = k
    · simp [counterBump, counterLookup, he]
    · simp only [counterBump, counterLookup, if_neg he]
      exact ih

theorem counterLookup_bump_ne (s : List (NackEntry × Nat)) (k k' : NackEntry)
    (h : k' ≠ k) :
    counterLookup (counterBump s k) k' = counterLookup s k' := by
  induction s with
  | nil =>
    simp only [counterBump, counterLookup]
    rw [if_neg (fun he => h he.symm)]
  | cons e rest ih =>
    by_cases he : e.1 = k
    · simp only [counterBump, if_pos he, counterLookup]
      rw [if_neg (by rw [he]; exact fun hx => h hx.symm),
        if_neg (by rw [he]; exact fun hx => h hx.symm)]
    · simp only [counterBump, if_neg he, counterLookup]
      split
      · rfl
      · exact ih

theorem counterBump_keys_mem (s : List (NackEntry × Nat)) (k : NackEntry)
    (h : k ∈ s.map Prod.fst) :
    (counterBump s k).map Prod.fst = s.map Prod.fst := by
  induction s with
  | nil => simp at h
  | cons e rest ih =>
    by_cases he : e.1 = k
    · simp [counterBump, he]
    · simp only [List.map_cons, List.mem_cons] at h
      rcases h with h | h
    
      · exact absurd h.symm he
      · simp [counterBump, if_neg he, ih h]

theorem counterBump_keys_not_mem (s : List (NackEntry × Nat)) (k : NackEntry)
    (h : k ∉ s.map Prod.fst) :
    (counterBump s k).map Prod.fst = s.map Prod.fst ++ [k] := by
  induction s with
  | nil => simp [counterBump]
  | cons e rest ih =>
    simp only [List.map_cons, List.mem_cons] at h
    push_neg at h
    simp only [counterBump]
    rw [if_neg (fun he => h.1 he.symm)]
    simp [ih h.2]

theorem counterBump_keys_nodup (s : List (NackEntry × Nat)) (k : NackEntry)
    (h : (s.map Prod.fst).Nodup) :
    ((counterBump s k).map Prod.fst).Nodup := by
  by_cases hm : k ∈ s.map Prod.fst
  · rw [counterBump_keys_mem s k hm]; exact h
  · rw [counterBump_keys_not_mem s k hm]
    simp [List.nodup_append, h, hm]

theorem counterBumpAll_lookup_not_mem (nacks : List NackEntry)
    (s : List (NackEntry × Nat)) (k : NackEntry) (h : k ∉ nacks) :
    counterLookup (counterBumpAll s nacks) k = counterLookup s k := by
  induction nacks generalizing s with
  | nil => rfl
  | cons n rest ih =>
    simp only [List.mem_cons] at h
    push_neg at h
    simp only [counterBumpAll, List.foldl_cons]
    rw [show List.foldl counterBump (counterBump s n) rest =
      counterBumpAll (counterBump s n) rest from rfl]
    rw [ih (counterBump s n) h.2, counterLookup_bump_ne _ _ _ h.1]

theorem counterBumpAll_lookup_mem (nacks : List NackEntry)
    (s : List (NackEntry × Nat)) (k : NackEntry) (hnd : nacks.Nodup)
    (h : k ∈ nacks) :
    counterLookup (counterBumpAll s nacks) k =
      some ((counterLookup s k).getD 0 + 1) := by
  induction nacks generalizing s with
  | nil => simp at h
  | cons n rest ih =>
    simp only [List.nodup_cons] at hnd
    simp only [counterBumpAll, List.foldl_cons]
    rw [show List.foldl counterBump (counterBump s n) rest =
      counterBumpAll (counterBump s n) rest from rfl]
    rcases List.mem_cons.mp h with he | hm
    · subst he
      rw [counterBumpAll_lookup_not_mem rest _ k hnd.1,
        counterLookup_bump_self]
    · rw [ih (counterBump s n) hnd.2 hm,
        counterLookup_bump_ne _ _ _ (fun he => hnd.1 (by rw [← he]; exact hm))]

theorem counterBumpAll_keys_nodup (nacks : List NackEntry)
    (s : List (NackEntry × Nat)) (h : (s.map Prod.fst).Nodup) :
    ((counterBumpAll s nacks).map Prod.fst).Nodup := by
  induction nacks generalizing s with
  | nil => exact h
  | cons n rest ih =>
    simp only [counterBumpAll, List.foldl_cons]
    exact ih (counterBump s n) (counterBump_keys_nodup s n h)

theorem nackHousekeeping_keys_subset (s : List (NackEntry × Nat))
    (k : NackEntry) (h : k ∈ (nackHousekeeping s).1.map Prod.fst) :
    k ∈ s.map Prod.fst := by
  induction s with
  | nil => simp [nackHousekeeping] at h
  | cons e rest ih =>
    simp only [nackHousekeeping] at h
    split at h
    · exact List.mem_cons_of_mem _ (ih h)
    · simp only [List.map_cons, List.mem_cons] at h ⊢
      rcases h with h | h
      · exact Or.inl h
      · exact Or.inr (ih h)

theorem nackHousekeeping_keys_nodup (s : List (NackEntry × Nat))
    (h : (s.map Prod.fst).Nodup) :
    ((nackHousekeeping s).1.map Prod.fst).Nodup := by
  induction s with
  | nil => simp [nackHousekeeping]
  | cons e rest ih =>
    simp only [List.map_cons, List.nodup_cons] at h
    simp only [nackHousekeeping]
    split
    · exact ih h.2
    · simp only [List.map_cons, List.nodup_cons]
      exact ⟨fun hm => h.1 (nackHousekeeping_keys_subset rest e.1 hm), ih h.2⟩

theorem nackHousekeeping_nacks_nodup (s : List (NackEntry × Nat)) :
    (nackHousekeeping s).2.Nodup := by
  induction s with
  | nil => simp [nackHousekeeping]
  | cons e rest ih =>
    simp only [nackHousekeeping]
    split
    · exact ih
    · split
      · exact ih
      · rename_i hmem
        exact List.nodup_cons.mpr ⟨hmem, ih⟩

theorem nackHousekeeping_mem (s : List (NackEntry × Nat)) (k : NackEntry)
    (h : (s.map Prod.fst).Nodup) :
    k ∈ (nackHousekeeping s).2 ↔
      ∃ v, counterLookup s k = some v ∧ v ≤ NACK_TRANSMIT_COUNT := by
  induction s with
  | nil => simp [nackHousekeeping, counterLookup]
  | cons e rest ih =>
    obtain ⟨k0, v0⟩ := e
    simp only [List.map_cons, List.nodup_cons] at h
    simp only [nackHousekeeping, counterLookup]
    split
    · rename_i hv
      rw [ih h.2]
      constructor
      · rintro ⟨v, hvl, hvle⟩
        refine ⟨v, ?_, hvle⟩
        rw [if_neg ?_]
        · exact hvl
        · intro he
          subst he
          rw [counterLookup_eq_none_of_not_mem rest k0 h.1] at hvl
          exact Option.noConfusion hvl
      · rintro ⟨v, hvl, hvle⟩
        split at hvl
        · rename_i he
          injection hvl with hvl
          subst hvl
          omega
        · exact ⟨v, hvl, hvle⟩
    · rename_i hv
      push_neg at hv
      by_cases he : k0 = k
      · subst he
        constructor
        · intro _
          exact ⟨v0, by rw [if_pos rfl], hv⟩
        · intro _
          split
          · rename_i hmem
            have := (ih h.2).mpr ?_
            · exact this
            · exact absurd ((ih h.2).mp hmem) (by
                rintro ⟨v, hvl, -⟩
                rw [counterLookup_eq_none_of_not_mem rest k0 h.1] at hvl
                exact Option.noConfusion hvl)
          · exact List.mem_cons_self _ _
      · rw [if_neg he]
        constructor
        · intro hm
          split at hm
          · exact (ih h.2).mp hm
          · rcases List.mem_cons.mp hm with hk | hk
            · exact absurd hk.symm he
            · exact (ih h.2).mp hk
        · intro hv2
          have hm := (ih h.2).mpr hv2
          split
          · exact hm
          · exact List.mem_cons_of_mem _ hm

theorem nackHousekeeping_lookup (s : List (NackEntry × Nat)) (k : NackEntry)
    (h : (s.map Prod.fst).Nodup) :
    counterLookup (nackHousekeeping s).1 k =
      match counterLookup s k with
      | some v => if v ≤ NACK_TRANSMIT_COUNT then some v else none
      | none => none := by
  induction s with
  | nil => simp [nackHousekeeping, counterLookup]
  | cons e rest ih =>
    obtain ⟨k0, v0⟩ := e
    simp only [List.map_cons, List.nodup_cons] at h
    simp only [nackHousekeeping, counterLookup]
    split
    · rename_i hv
      rw [ih h.2]
      by_cases he : k0 = k
      · subst he
        rw [if_pos rfl, counterLookup_eq_none_of_not_mem rest k0 h.1]
        simp [if_neg (by omega : ¬ v0 ≤ NACK_TRANSMIT_COUNT)]
      · rw [if_neg he]
    · rename_i hv
      push_neg at hv
      by_cases he : k0 = k
      · subst he
        simp [counterLookup, hv]
      · simp only [counterLookup, if_neg he]
        exact ih h.2

theorem mem_sortedNackNums (l : List NackEntry) (ns : List Nat) (x : Nat)
    (h : sortedNackNums l = some ns) (hx : x ∈ ns) : NackEntry.num x ∈ l := by
  unfold sortedNackNums at h
  split at h
  · injection h with h
    subst h
    have hx' := (List.perm_insertionSort (· ≤ ·) _).mem_iff.mp hx
    obtain ⟨e, hel, hfe⟩ := List.mem_filterMap.mp hx'
    cases e with
    | num n =>
      injection hfe with hfe
      subst hfe
      exact hel
    | str s => exact Option.noConfusion hfe
  · exact Option.noConfusion h

theorem clock_self_run_eq (m : Messenger) (c : Nat) (m' : Messenger)
    (h : m.clock_self_run = some (c, m')) :
    c = m.outbox.length ∧ m' = { m with cached_clock_self := m.outbox.length } := by
  unfold Messenger.clock_self_run at h
  split at h
  · injection h with h
    injection h with h1 h2
    exact ⟨h1.symm, h2.symm⟩
  · exact Option.noConfusion h

theorem clock_other_run_eq (m : Messenger) (c : Nat) (m' : Messenger)
    (h : m.clock_other_run = some (c, m')) :
    m' = { m with cached_clock_other := c } := by
  unfold Messenger.clock_other_run at h
  split at h
  · exact Option.noConfusion h
  · rename_i i hi
    injection h with h
    injection h with h1 h2
    rw [← h2, h1]

theorem other_clock_self_run_snd (m : Messenger) :
    (m.other_clock_self_run).2 =
      { m with cached_other_clock_self := (m.other_clock_self_run).1 } := rfl

/-- How one `create_packet` call transforms the NACK state: either an
exception fired before the housekeeping (state and `nack_ids` unchanged,
no packet emitted), or the bump/decay housekeeping ran — and then any id
the emitted control transmits was a member of `nack_ids` beforehand. -/
theorem create_packet_nack_state (m : Messenger) (rt : Option Int) (now : Int)
    (hkk : List Nat) :
    ((m.create_packet rt now hkk).2.nack_ids = m.nack_ids ∧
     (m.create_packet rt now hkk).2.sent_nack_ids = m.sent_nack_ids ∧
     (m.create_packet rt now hkk).1 = none) ∨
    ((m.create_packet rt now hkk).2.nack_ids =
        (nackHousekeeping (counterBumpAll m.sent_nack_ids m.nack_ids)).2 ∧
     (m.create_packet rt now hkk).2.sent_nack_ids =
        (nackHousekeeping (counterBumpAll m.sent_nack_ids m.nack_ids)).1 ∧
     ∀ x, emitsNack x (m.create_packet rt now hkk).1 = true →
       NackEntry.num x ∈ m.nack_ids) := by
  simp only [Messenger.create_packet]
  split
  · exact Or.inl ⟨rfl, rfl, rfl⟩
  · rename_i cs m1 h1
    obtain ⟨hcs, hm1⟩ := clock_self_run_eq m cs m1 h1
    subst hm1
    split
    · exact Or.inl ⟨rfl, rfl, rfl⟩
    · rename_i co m2 h2
      have hm2 := clock_other_run_eq _ co m2 h2
      subst hm2
      simp only [Messenger.other_clock_self_run]
      split
      · rename_i heq
        exact Or.inl ⟨rfl, rfl, rfl⟩
      · rename_i nacks hsort
        split
        · split
          · split
            · rename_i hrange hsz hid
              refine Or.inr ⟨rfl, rfl, ?_⟩
              intro x hx
              simp only [emitsNack] at hx
              rw [decide_eq_true_eq] at hx
              exact mem_sortedNackNums _ _ _ hsort hx
            · exact Or.inr ⟨rfl, rfl, fun x hx => by simp [emitsNack] at hx⟩
          · exact Or.inl ⟨rfl, rfl, rfl⟩
        · exact Or.inl ⟨rfl, rfl, rfl⟩

/-- One `create_packet` call costs at least `1` from the remaining NACK
budget for `x` whenever it transmits `x`, and never increases it. -/
theorem nackBudget_step (m : Messenger) (rt : Option Int) (now : Int)
    (hkk : List Nat) (x : Nat) (hnd : m.nack_ids.Nodup)
    (hkeys : (m.sent_nack_ids.map Prod.fst).Nodup) :
    (m.create_packet rt now hkk).2.nack_ids.Nodup ∧
    ((m.create_packet rt now hkk).2.sent_nack_ids.map Prod.fst).Nodup ∧
    (emitsNack x (m.create_packet rt now hkk).1).toNat +
      nackBudget (m.create_packet rt now hkk).2 x ≤ nackBudget m x := by
  rcases create_packet_nack_state m rt now hkk with ⟨h1, h2, h3⟩ | ⟨h1, h2, hemit⟩
  · refine ⟨h1 ▸ hnd, h2 ▸ hkeys, ?_⟩
    rw [h3]
    simp only [emitsNack, Bool.toNat_false, Nat.zero_add]
    unfold nackBudget
    rw [h1, h2]
  · have hkeysB : ((counterBumpAll m.sent_nack_ids m.nack_ids).map Prod.fst).Nodup :=
      counterBumpAll_keys_nodup _ _ hkeys
    refine ⟨h1 ▸ nackHousekeeping_nacks_nodup _,
      h2 ▸ nackHousekeeping_keys_nodup _ hkeysB, ?_⟩
    have hmem' : NackEntry.num x ∈ (m.create_packet rt now hkk).2.nack_ids ↔
        ∃ v, counterLookup (counterBumpAll m.sent_nack_ids m.nack_ids)
          (NackEntry.num x) = some v ∧ v ≤ NACK_TRANSMIT_COUNT := by
      rw [h1]; exact nackHousekeeping_mem _ _ hkeysB
    have hlook' : counterLookup (m.create_packet rt now hkk).2.sent_nack_ids
        (NackEntry.num x) =
        match counterLookup (counterBumpAll m.sent_nack_ids m.nack_ids)
          (NackEntry.num x) with
        | some v => if v ≤ NACK_TRANSMIT_COUNT then some v else none
        | none => none := by
      rw [h2]; exact nackHousekeeping_lookup _ _ hkeysB
    have hemit1 : (emitsNack x (m.create_packet rt now hkk).1).toNat ≤ 1 := by
      cases emitsNack x (m.create_packet rt now hkk).1 <;> simp
    by_cases hm : NackEntry.num x ∈ m.nack_ids
    · have hB : counterLookup (counterBumpAll m.sent_nack_ids m.nack_ids)
          (NackEntry.num x) =
          some ((counterLookup m.sent_nack_ids (NackEntry.num x)).getD 0 + 1) :=
        counterBumpAll_lookup_mem _ _ _ hnd hm
      rw [hB] at hmem' hlook'
      cases hc : counterLookup m.sent_nack_ids (NackEntry.num x) with
      | none =>
        rw [hc] at hmem' hlook'
        have hlook2 : counterLookup (m.create_packet rt now hkk).2.sent_nack_ids
            (NackEntry.num x) = some 1 := by
          rw [hlook']
          decide
        have hmem2 : NackEntry.num x ∈ (m.create_packet rt now hkk).2.nack_ids :=
          hmem'.mpr ⟨1, by simp, by decide⟩
        have hbm : nackBudget m x = NACK_TRANSMIT_COUNT + 1 := by
          unfold nackBudget
          rw [if_pos hm, hc]
        have hbm' : nackBudget (m.create_packet rt now hkk).2 x =
            NACK_TRANSMIT_COUNT := by
          unfold nackBudget
          rw [if_pos hmem2, hlook2]
          rfl
        rw [hbm, hbm']
        omega
      | some c =>
        rw [hc] at hmem' hlook'
        simp only [Option.getD_some] at hmem' hlook'
        have hbm : nackBudget m x =
            if c ≤ NACK_TRANSMIT_COUNT then NACK_TRANSMIT_COUNT + 1 - c else 1 := by
          unfold nackBudget
          rw [if_pos hm, hc]
        by_cases hc5 : c + 1 ≤ NACK_TRANSMIT_COUNT
        · have hlook2 : counterLookup (m.create_packet rt now hkk).2.sent_nack_ids
              (NackEntry.num x) = some (c + 1) := by
            rw [hlook']
            simp [hc5]
          have hmem2 : NackEntry.num x ∈ (m.create_packet rt now hkk).2.nack_ids :=
            hmem'.mpr ⟨c + 1, rfl, hc5⟩
          have hbm' : nackBudget (m.create_packet rt now hkk).2 x =
              NACK_TRANSMIT_COUNT + 1 - (c + 1) := by
            unfold nackBudget
            rw [if_pos hmem2, hlook2]
            exact if_pos hc5
          rw [hbm, hbm', if_pos (by omega : c ≤ NACK_TRANSMIT_COUNT)]
          omega
        · have hlook2 : counterLookup (m.create_packet rt now hkk).2.sent_nack_ids
              (NackEntry.num x) = none := by
            rw [hlook']
            simp [hc5]
          have hmem2 : ¬ NackEntry.num x ∈ (m.create_packet rt now hkk).2.nack_ids := by
            rw [hmem']
            rintro ⟨v, hv1, hv2⟩
            injection hv1 with hv1
            omega
          have hbm' : nackBudget (m.create_packet rt now hkk).2 x = 0 := by
            unfold nackBudget
            rw [if_neg hmem2, hlook2]
          rw [hbm, hbm']
          split <;> omega
    · have hB : counterLookup (counterBumpAll m.sent_nack_ids m.nack_ids)
          (NackEntry.num x) = counterLookup m.sent_nack_ids (NackEntry.num x) :=
        counterBumpAll_lookup_not_mem _ _ _ hm
      rw [hB] at hmem' hlook'
      have hemit0 : (emitsNack x (m.create_packet rt now hkk).1).toNat = 0 := by
        cases he : emitsNack x (m.create_packet rt now hkk).1
        · simp
        · exact absurd (hemit x he) hm
      rw [hemit0, Nat.zero_add]
      cases hc : counterLookup m.sent_nack_ids (NackEntry.num x) with
      | none =>
        rw [hc] at hmem' hlook'
        have hmem2 : ¬ NackEntry.num x ∈ (m.create_packet rt now hkk).2.nack_ids := by
          rw [hmem']
          rintro ⟨v, hv1, -⟩
          exact Option.noConfusion hv1
        have hlook2 : counterLookup (m.create_packet rt now hkk).2.sent_nack_ids
            (NackEntry.num x) = none := by
          rw [hlook']
        have hbm : nackBudget m x = 0 := by
          unfold nackBudget
          rw [if_neg hm, hc]
        have hbm' : nackBudget (m.create_packet rt now hkk).2 x = 0 := by
          unfold nackBudget
          rw [if_neg hmem2, hlook2]
        rw [hbm, hbm']
      | some c =>
        rw [hc] at hmem' hlook'
        have hbm : nackBudget m x =
            if c ≤ NACK_TRANSMIT_COUNT then NACK_TRANSMIT_COUNT + 1 - c else 0 := by
          unfold nackBudget
          rw [if_neg hm, hc]
        by_cases hc5 : c ≤ NACK_TRANSMIT_COUNT
        · have hmem2 : NackEntry.num x ∈ (m.create_packet rt now hkk).2.nack_ids :=
            hmem'.mpr ⟨c, rfl, hc5⟩
          have hlook2 : counterLookup (m.create_packet rt now hkk).2.sent_nack_ids
              (NackEntry.num x) = some c := by
            rw [hlook']
            simp [hc5]
          have hbm' : nackBudget (m.create_packet rt now hkk).2 x =
              NACK_TRANSMIT_COUNT + 1 - c := by
            unfold nackBudget
            rw [if_pos hmem2, hlook2]
            simp [hc5]
          rw [hbm, hbm', if_pos hc5]
        · have hmem2 : ¬ NackEntry.num x ∈ (m.create_packet rt now hkk).2.nack_ids := by
            rw [hmem']
            rintro ⟨v, hv1, hv2⟩
            injection hv1 with hv1
            omega
          have hlook2 : counterLookup (m.create_packet rt now hkk).2.sent_nack_ids
              (NackEntry.num x) = none := by
            rw [hlook']
            simp [hc5]
          have hbm' : nackBudget (m.create_packet rt now hkk).2 x = 0 := by
            unfold nackBudget
            rw [if_neg hmem2, hlook2]
          rw [hbm, hbm', if_neg hc5]

/-- The number of NACK transmissions of `x` along any `create_packet`
trace is bounded by the state's remaining budget. -/
theorem createTrace_countP_le (n : Nat) (m : Messenger) (now : Nat → Int)
    (hk : Nat → List Nat) (x : Nat) (hnd : m.nack_ids.Nodup)
    (hkeys : (m.sent_nack_ids.map Prod.fst).Nodup) :
    (createTrace m now hk n).countP (emitsNack x) ≤ nackBudget m x := by
  induction n generalizing m now hk with
  | zero => simp [createTrace]
  | succ n ih =>
    obtain ⟨h1, h2, h3⟩ := nackBudget_step m none (now 0) (hk 0) x hnd hkeys
    simp only [createTrace, List.countP_cons]
    have := ih (m.create_packet none (now 0) (hk 0)).2
      (fun i => now (i + 1)) (fun i => hk (i + 1)) h1 h2
    have hcnt : (if emitsNack x (m.create_packet none (now 0) (hk 0)).1 = true
        then 1 else 0) =
        (emitsNack x (m.create_packet none (now 0) (hk 0)).1).toNat := by
      cases emitsNack x (m.create_packet none (now 0) (hk 0)).1 <;> rfl
    rw [hcnt]
    omega

/-! ## C6 -/

/-- Amended C6: a foreign packet id inserted once into `nack_ids` (with
no prior ageing count) and never re-inserted is transmitted by at most
`NACK_TRANSMIT_COUNT + 1` of the subsequent `create_packet` calls — one
more than the claim's `NACK_TRANSMIT_COUNT`, because the housekeeping
re-adds an id while its count is still `≤ NACK_TRANSMIT_COUNT` after the
bump — and after those transmissions it is never transmitted again (the
bound holds for every trace length `n`). -/
theorem nack_transmitted_at_most_count_plus_one (m : Messenger)
    (now : Nat → Int) (hk : Nat → List Nat) (n x : Nat)
    (hmem : NackEntry.num x ∈ m.nack_ids)
    (hfresh : counterLookup m.sent_nack_ids (NackEntry.num x) = none)
    (hnd : m.nack_ids.Nodup)
    (hkeys : (m.sent_nack_ids.map Prod.fst).Nodup) :
    (createTrace m now hk n).countP (emitsNack x) ≤ NACK_TRANSMIT_COUNT + 1 := by
  have h := createTrace_countP_le n m now hk x hnd hkeys
  have hb : nackBudget m x = NACK_TRANSMIT_COUNT + 1 := by
    unfold nackBudget
    rw [if_pos hmem, hfresh]
  omega

/-- Counterexample to C6 as stated: from a fresh messenger with foreign
packet id 7 freshly inserted into `nack_ids` and never re-inserted,
*six* consecutive `create_packet` calls — strictly more than
`NACK_TRANSMIT_COUNT = 5` — emit a Control whose `nack_ids` contains 7
(the seventh and later calls no longer do). -/
theorem nack_transmitted_six_times :
    NACK_TRANSMIT_COUNT = 5 ∧
    (createTrace c6_messenger (fun _ => 0) (fun _ => []) 6).countP
      (emitsNack 7) = 6 ∧
    (createTrace c6_messenger (fun _ => 0) (fun _ => []) 8).countP
      (emitsNack 7) = 6 := by
  refine ⟨rfl, by decide, by decide⟩

/-- Witness for the amended C6 bound at the concrete scenario. -/
theorem nack_transmitted_at_most_count_plus_one_witness :
    (createTrace c6_messenger (fun _ => 0) (fun _ => []) 10).countP
      (emitsNack 7) ≤ NACK_TRANSMIT_COUNT + 1 :=
  nack_transmitted_at_most_count_plus_one c6_messenger (fun _ => 0)
    (fun _ => []) 10 7 (by decide) (by decide) (by decide) (by decide)

/-! ## C9: counterexample -/

/-- Counterexample to C9 as stated: with multipart fragment 2 (whose
`message_prev = 1`) delivered before fragment 1, `inbox[1].message` is
non-null after the first receive, yet the second receive's linking pass
mutates it (its `previous_message` is set to the stored fragment 1), so
"once `inbox[i].message` is non-null it is never changed" fails. -/
theorem inbox_message_changed_by_multipart_linking :
    c9_mid.inbox.map InboxItem.message = [none, some c9_frag2] ∧
    c9_final.inbox.map InboxItem.message =
      [some c9_frag1, some (setMsgPrev c9_frag2 (some c9_frag1))] ∧
    some (setMsgPrev c9_frag2 (some c9_frag1)) ≠ some c9_frag2 := by
  refine ⟨by decide, by decide, by decide⟩

/-! ## C9: stability machinery -/

theorem outboxItemStable_refl (a : OutboxItem) : outboxItemStable a a :=
  fun _ => rfl

theorem outboxItemStable_trans {a b c : OutboxItem}
    (h1 : outboxItemStable a b) (h2 : outboxItemStable b c) :
    outboxItemStable a c := by
  intro ha
  rw [h2 (by rw [h1 ha]; exact ha), h1 ha]

theorem inboxItemStable_refl (a : InboxItem) : inboxItemStable a a :=
  ⟨fun ma hma => ⟨ma, hma, rfl⟩, fun _ => rfl⟩

theorem inboxItemStable_trans {a b c : InboxItem}
    (h1 : inboxItemStable a b) (h2 : inboxItemStable b c) :
    inboxItemStable a c := by
  constructor
  · intro ma hma
    obtain ⟨mb, hmb, hcb⟩ := h1.1 ma hma
    obtain ⟨mc, hmc, hcc⟩ := h2.1 mb hmb
    exact ⟨mc, hmc, by rw [hcc, hcb]⟩
  · intro ha
    rw [h2.2 (by rw [h1.2 ha]; exact ha), h1.2 ha]

theorem outboxEvolves_refl (l : List OutboxItem) : outboxEvolves l l :=
  fun _ it h => ⟨it, h, outboxItemStable_refl it⟩

theorem outboxEvolves_trans {a b c : List OutboxItem}
    (h1 : outboxEvolves a b) (h2 : outboxEvolves b c) : outboxEvolves a c := by
  intro j it h
  obtain ⟨it1, hg1, hs1⟩ := h1 j it h
  obtain ⟨it2, hg2, hs2⟩ := h2 j it1 hg1
  exact ⟨it2, hg2, outboxItemStable_trans hs1 hs2⟩

theorem inboxEvolves_refl (l : List InboxItem) : inboxEvolves l l :=
  fun _ it h => ⟨it, h, inboxItemStable_refl it⟩

theorem inboxEvolves_trans {a b c : List InboxItem}
    (h1 : inboxEvolves a b) (h2 : inboxEvolves b c) : inboxEvolves a c := by
  intro j it h
  obtain ⟨it1, hg1, hs1⟩ := h1 j it h
  obtain ⟨it2, hg2, hs2⟩ := h2 j it1 hg1
  exact ⟨it2, hg2, inboxItemStable_trans hs1 hs2⟩

theorem messengerStable_refl (m : Messenger) : messengerStable m m :=
  ⟨outboxEvolves_refl m.outbox, inboxEvolves_refl m.inbox⟩

theorem messengerStable_trans {a b c : Messenger}
    (h1 : messengerStable a b) (h2 : messengerStable b c) :
    messengerStable a c :=
  ⟨outboxEvolves_trans h1.1 h2.1, inboxEvolves_trans h1.2 h2.2⟩

/-- A single guarded `List.set` evolves the list pointwise. -/
theorem outboxEvolves_set (l : List OutboxItem) (i : Nat) (a a' : OutboxItem)
    (hget : l.get? i = some a) (hstab : outboxItemStable a a') :
    outboxEvolves l (l.set i a') := by
  intro j it h
  by_cases hij : i = j
  · subst hij
    rw [hget] at h
    injection h with h
    subst h
    refine ⟨a', ?_, hstab⟩
    rw [List.get?_set_eq, hget]
    rfl
  · exact ⟨it, by rw [List.get?_set_ne _ _ hij]; exact h, outboxItemStable_refl it⟩

theorem inboxEvolves_set (l : List InboxItem) (i : Nat) (a a' : InboxItem)
    (hget : l.get? i = some a) (hstab : inboxItemStable a a') :
    inboxEvolves l (l.set i a') := by
  intro j it h
  by_cases hij : i = j
  · subst hij
    rw [hget] at h
    injection h with h
    subst h
    refine ⟨a', ?_, hstab⟩
    rw [List.get?_set_eq, hget]
    rfl
  · exact ⟨it, by rw [List.get?_set_ne _ _ hij]; exact h, inboxItemStable_refl it⟩

theorem outboxEvolves_append (l suf : List OutboxItem) :
    outboxEvolves l (l ++ suf) := by
  intro j it h
  have hlt : j < l.length := by
    by_contra hge
    rw [List.get?_eq_none.mpr (by omega)] at h
    exact Option.noConfusion h
  exact ⟨it, by rw [List.get?_append hlt]; exact h, outboxItemStable_refl it⟩

theorem inboxEvolves_append (l suf : List InboxItem) :
    inboxEvolves l (l ++ suf) := by
  intro j it h
  have hlt : j < l.length := by
    by_contra hge
    rw [List.get?_eq_none.mpr (by omega)] at h
    exact Option.noConfusion h
  exact ⟨it, by rw [List.get?_append hlt]; exact h, inboxItemStable_refl it⟩

theorem ackOutboxGo_evolves (ts : Int) :
    ∀ (fuel : Nat) (outbox : List OutboxItem) (i : Nat),
      outboxEvolves outbox (ackOutboxGo ts outbox i fuel).1 := by
  intro fuel
  induction fuel with
  | zero => intro outbox i; exact outboxEvolves_refl outbox
  | succ fuel ih =>
    intro outbox i
    unfold ackOutboxGo
    cases hget : outbox.get? i with
    | none => exact outboxEvolves_refl outbox
    | some it =>
      refine outboxEvolves_trans (b := outbox.set i
        (if it.acked = none then { it with acked := some ts } else it)) ?_ (ih _ _)
      refine outboxEvolves_set outbox i it _ hget ?_
      intro ha
      split
      · rename_i hnone
        exact absurd hnone ha
      · rfl

theorem sackAckOutbox_evolves (ts : Int) :
    ∀ (sacks : List Nat) (outbox : List OutboxItem),
      outboxEvolves outbox (sackAckOutbox ts outbox sacks).1 := by
  intro sacks
  induction sacks with
  | nil => intro outbox; exact outboxEvolves_refl outbox
  | cons i rest ih =>
    intro outbox
    unfold sackAckOutbox
    cases hget : outbox.get? (i - 1) with
    | none => exact outboxEvolves_refl outbox
    | some it =>
      dsimp only []
      by_cases hid : it.message.header.message_id = i
      · rw [if_pos hid]
        refine outboxEvolves_trans (b := outbox.set (i - 1)
          (if it.acked = none then { it with acked := some ts } else it)) ?_ (ih _)
        refine outboxEvolves_set outbox (i - 1) it _ hget ?_
        intro ha
        split
        · rename_i hnone
          exact absurd hnone ha
        · rfl
      · rw [if_neg hid]
        exact outboxEvolves_refl outbox

theorem sendMarkOutbox_evolves (ts : Int) (pid : Nat) :
    ∀ (msgs : List Message) (outbox : List OutboxItem),
      outboxEvolves outbox (sendMarkOutbox ts pid outbox msgs).1 := by
  intro msgs
  induction msgs with
  | nil => intro outbox; exact outboxEvolves_refl outbox
  | cons msg rest ih =>
    intro outbox
    unfold sendMarkOutbox
    cases hget : outbox.get? (msg.header.message_id - 1) with
    | none => exact outboxEvolves_refl outbox
    | some it =>
      dsimp only []
      split
      · exact ih outbox
      · refine outboxEvolves_trans (b := outbox.set (msg.header.message_id - 1)
          { it with packet_timestamp := some ts, packet_id := some pid }) ?_ (ih _)
        exact outboxEvolves_set outbox _ it _ hget (fun _ => rfl)

theorem clearNacked_evolves (outbox : List OutboxItem) (start : Nat)
    (nacks : List Nat) : outboxEvolves outbox (clearNacked outbox start nacks) := by
  intro j it h
  have hlt : j < outbox.length := by
    by_contra hge
    rw [List.get?_eq_none.mpr (by omega)] at h
    exact Option.noConfusion h
  unfold clearNacked
  by_cases hj : j < (outbox.take start).length
  · refine ⟨it, ?_, outboxItemStable_refl it⟩
    rw [List.get?_append hj, List.get?_take (by simp at hj; omega)]
    exact h
  · rw [List.length_take] at hj
    have hstart : start ≤ j := by omega
    set f : OutboxItem → OutboxItem := fun it =>
      if it.acked ≠ none then it
      else match it.packet_id with
        | some pid =>
          if pid ∈ nacks then { it with packet_id := none, packet_timestamp := none }
          else it
        | none => it with hf
    refine ⟨f it, ?_, ?_⟩
    · rw [List.get?_append_right (by rw [List.length_take]; omega)]
      rw [List.length_take, List.get?_map]
      have : (outbox.drop start).get? (j - min start outbox.length) =
          outbox.get? j := by
        rw [List.get?_drop]
        congr 1
        omega
      rw [this, h]
      rfl
    · intro ha
      rw [hf]
      simp only []
      rw [if_pos ha]

theorem ackInboxGo_evolves (ts : Int) :
    ∀ (fuel : Nat) (inbox : List InboxItem) (i : Nat),
      inboxEvolves inbox (ackInboxGo ts inbox i fuel).1 := by
  intro fuel
  induction fuel with
  | zero => intro inbox i; exact inboxEvolves_refl inbox
  | succ fuel ih =>
    intro inbox i
    unfold ackInboxGo
    cases hget : inbox.get? i with
    | none => exact inboxEvolves_refl inbox
    | some it =>
      refine inboxEvolves_trans (b := inbox.set i
        (if it.acked = none then { it with acked := some ts } else it)) ?_ (ih _ _)
      refine inboxEvolves_set inbox i it _ hget ?_
      constructor
      · intro ma hma
        refine ⟨ma, ?_, rfl⟩
        split <;> exact hma
      · intro ha
        split <;> rfl

theorem sackAckInbox_evolves (ts : Int) :
    ∀ (sacks : List Nat) (inbox : List InboxItem),
      inboxEvolves inbox (sackAckInbox ts inbox sacks).1 := by
  intro sacks
  induction sacks with
  | nil => intro inbox; exact inboxEvolves_refl inbox
  | cons i rest ih =>
    intro inbox
    unfold sackAckInbox
    cases hget : inbox.get? (i - 1) with
    | none => exact inboxEvolves_refl inbox
    | some it =>
      dsimp only []
      cases hmsg : it.message with
      | none => exact inboxEvolves_refl inbox
      | some msg =>
        dsimp only []
        split
        · refine inboxEvolves_trans ?_ (ih _)
          refine inboxEvolves_set inbox (i - 1) it _ hget ?_
          constructor
          · intro ma hma
            split
            · rename_i hack
              rw [hmsg] at hma
              injection hma with hma
              exact ⟨msg, rfl, by rw [hma]⟩
            · exact ⟨ma, hma, rfl⟩
          · intro ha
            split <;> rfl
        · exact inboxEvolves_refl inbox

theorem ackAckInboxGo_evolves (ts : Int) :
    ∀ (fuel : Nat) (inbox : List InboxItem) (i : Nat),
      inboxEvolves inbox (ackAckInboxGo ts inbox i fuel).1 := by
  intro fuel
  induction fuel with
  | zero => intro inbox i; exact inboxEvolves_refl inbox
  | succ fuel ih =>
    intro inbox i
    unfold ackAckInboxGo
    cases hget : inbox.get? i with
    | none => exact inboxEvolves_refl inbox
    | some it =>
      refine inboxEvolves_trans (b := inbox.set i
        (if it.ack_acked = none then { it with ack_acked := some ts } else it))
        ?_ (ih _ _)
      refine inboxEvolves_set inbox i it _ hget ?_
      constructor
      · intro ma hma
        refine ⟨ma, ?_, rfl⟩
        split <;> exact hma
      · intro ha
        split
        · rename_i hnone
          exact absurd hnone ha
        · rfl

theorem ingestGo_evolves (ts : Int) :
    ∀ (msgs : List Message) (inbox : List InboxItem) (unl : List (Nat × Nat)),
      inboxEvolves inbox (ingestGo ts inbox unl msgs).1 := by
  intro msgs
  induction msgs with
  | nil => intro inbox unl; exact inboxEvolves_refl inbox
  | cons msg rest ih =>
    intro inbox unl
    unfold ingestGo
    cases hget : inbox.get? (msg.header.message_id - 1) with
    | none => exact inboxEvolves_refl inbox
    | some it =>
      dsimp only []
      split
      · exact ih inbox unl
      · rename_i hmsg
        refine inboxEvolves_trans (b := inbox.set (msg.header.message_id - 1)
          { it with message := some msg, packet_timestamp := some ts }) ?_ (ih _ _)
        refine inboxEvolves_set inbox _ it _ hget ?_
        constructor
        · intro ma hma
          rw [hma] at hmsg
          simp at hmsg
        · intro ha
          rfl

theorem msgCore_setMsgPrev (m : Message) (p : Option Message) :
    msgCore (setMsgPrev m p) = msgCore m := by
  cases m
  rfl

theorem linkGo_evolves :
    ∀ (snap : List (Nat × Nat)) (inbox : List InboxItem)
      (live : List (Nat × Nat)),
      inboxEvolves inbox (linkGo inbox live snap).1 := by
  intro snap
  induction snap with
  | nil => intro inbox live; exact inboxEvolves_refl inbox
  | cons kv rest ih =>
    intro inbox live
    obtain ⟨mid, pid⟩ := kv
    unfold linkGo
    cases hgetp : inbox.get? (pid - 1) with
    | none => exact inboxEvolves_refl inbox
    | some pit =>
      dsimp only []
      cases hpmsg : pit.message with
      | none => exact ih inbox live
      | some pmsg =>
        dsimp only []
        cases hgetm : inbox.get? (mid - 1) with
        | none => exact inboxEvolves_refl inbox
        | some mit =>
          dsimp only []
          cases hmmsg : mit.message with
          | none => exact inboxEvolves_refl inbox
          | some mmsg =>
            dsimp only []
            refine inboxEvolves_trans (b := inbox.set (mid - 1)
              { mit with message := some (setMsgPrev mmsg (some pmsg)) })
              ?_ (ih _ _)
            refine inboxEvolves_set inbox _ mit _ hgetm ?_
            constructor
            · intro ma hma
              rw [hmmsg] at hma
              injection hma with hma
              subst hma
              exact ⟨setMsgPrev mmsg (some pmsg), rfl, msgCore_setMsgPrev _ _⟩
            · intro ha
              rfl

theorem appendMultipartGo_evolves (C : Crypto) (origCt : Nat) :
    ∀ (fuel : Nat) (data : List Nat) (outbox : List OutboxItem) (prev : Nat),
      outboxEvolves outbox (appendMultipartGo C origCt fuel data outbox prev) := by
  intro fuel
  induction fuel with
  | zero =>
    intro data outbox prev
    simp only [appendMultipartGo]
    exact outboxEvolves_refl outbox
  | succ fuel ih =>
    intro data outbox prev
    cases data with
    | nil =>
      simp only [appendMultipartGo]
      exact outboxEvolves_refl outbox
    | cons b bs =>
      simp only [appendMultipartGo]
      exact outboxEvolves_trans (outboxEvolves_append outbox _) (ih _ _ _)

theorem append_outbox_data_stable (C : Crypto) (m : Messenger)
    (ct : Nat) (d : List Nat) :
    messengerStable m (m.append_outbox_data C ct d) := by
  simp only [Messenger.append_outbox_data]
  split
  · exact ⟨outboxEvolves_append _ _, inboxEvolves_refl _⟩
  · split
    · rename_i v m'' hrun
      obtain ⟨-, hm''⟩ := clock_self_run_eq _ v m'' hrun
      subst hm''
      exact ⟨appendMultipartGo_evolves C _ _ _ m.outbox 0, inboxEvolves_refl _⟩
    · exact ⟨appendMultipartGo_evolves C _ _ _ m.outbox 0, inboxEvolves_refl _⟩

theorem create_packet_boxes (m : Messenger) (rt : Option Int) (now : Int)
    (hkk : List Nat) :
    (m.create_packet rt now hkk).2.outbox = m.outbox ∧
    (m.create_packet rt now hkk).2.inbox = m.inbox := by
  simp only [Messenger.create_packet]
  split
  · exact ⟨rfl, rfl⟩
  · rename_i cs m1 h1
    obtain ⟨-, hm1⟩ := clock_self_run_eq m cs m1 h1
    subst hm1
    split
    · exact ⟨rfl, rfl⟩
    · rename_i co m2 h2
      have hm2 := clock_other_run_eq _ co m2 h2
      subst hm2
      simp only [Messenger.other_clock_self_run]
      split
      · exact ⟨rfl, rfl⟩
      · split
        · split
          · split
            · exact ⟨rfl, rfl⟩
            · exact ⟨rfl, rfl⟩
          · exact ⟨rfl, rfl⟩
        · exact ⟨rfl, rfl⟩

theorem create_packet_stable (m : Messenger) (rt : Option Int) (now : Int)
    (hkk : List Nat) : messengerStable m (m.create_packet rt now hkk).2 := by
  obtain ⟨h1, h2⟩ := create_packet_boxes m rt now hkk
  exact ⟨by rw [h1]; exact outboxEvolves_refl _, by rw [h2]; exact inboxEvolves_refl _⟩

theorem packet_send_stable (m : Messenger) (p : Packet) :
    messengerStable m (m.packet_send p).1 := by
  simp only [Messenger.packet_send]
  split
  · exact messengerStable_refl m
  · split
    · exact messengerStable_refl m
    · split
      · exact messengerStable_refl m
      · rename_i c hc
        split
        · exact messengerStable_refl m
        · rename_i co m1 hrun
          have hm1 := clock_other_run_eq m co m1 hrun
          subst hm1
          have hin1 : inboxEvolves m.inbox
              (ackInboxGo p.header.packet_timestamp m.inbox co
                (c.sender_clock_recipient - co)).1 :=
            ackInboxGo_evolves _ _ _ _
          split
          · split
            · exact ⟨sendMarkOutbox_evolves p.header.packet_timestamp
                p.header.packet_id p.messages m.outbox,
                inboxEvolves_trans hin1 (sackAckInbox_evolves _ _ _)⟩
            · exact ⟨outboxEvolves_refl _,
                inboxEvolves_trans hin1 (sackAckInbox_evolves _ _ _)⟩
          · exact ⟨outboxEvolves_refl _, hin1⟩

theorem packet_receive_stable (m : Messenger) (p : Packet) :
    messengerStable m (m.packet_receive p).1 := by
  simp only [Messenger.packet_receive, Messenger.other_clock_self_run]
  split
  · exact messengerStable_refl m
  · split
    · exact messengerStable_refl m
    · split
      · exact messengerStable_refl m
      · rename_i c hc
        have hgrow : inboxEvolves m.inbox (m.inbox ++
            List.replicate (c.sender_clock_sender - m.inbox.length)
              (⟨none, none, none, none⟩ : InboxItem)) :=
          inboxEvolves_append _ _
        have hout1 : outboxEvolves m.outbox
            (ackOutboxGo p.header.packet_timestamp m.outbox
              (otherClockSelfGo m.outbox m.cached_other_clock_self
                (m.outbox.length - m.cached_other_clock_self))
              (c.sender_clock_recipient -
                otherClockSelfGo m.outbox m.cached_other_clock_self
                  (m.outbox.length - m.cached_other_clock_self))).1 :=
          ackOutboxGo_evolves _ _ _ _
        have hout2 : outboxEvolves m.outbox
            (sackAckOutbox p.header.packet_timestamp
              (ackOutboxGo p.header.packet_timestamp m.outbox
                (otherClockSelfGo m.outbox m.cached_other_clock_self
                  (m.outbox.length - m.cached_other_clock_self))
                (c.sender_clock_recipient -
                  otherClockSelfGo m.outbox m.cached_other_clock_self
                    (m.outbox.length - m.cached_other_clock_self))).1
              c.sender_clock_out_of_order).1 :=
          outboxEvolves_trans hout1 (sackAckOutbox_evolves _ _ _)
        have hin1 : inboxEvolves m.inbox
            (ackAckInboxGo p.header.packet_timestamp
              (m.inbox ++ List.replicate
                (c.sender_clock_sender - m.inbox.length)
                (⟨none, none, none, none⟩ : InboxItem))
              0 c.recipient_clock_sender).1 :=
          inboxEvolves_trans hgrow (ackAckInboxGo_evolves _ _ _ _)
        split
        · split
          · split
            · split
              · exact ⟨hout2, hin1⟩
              · rename_i m7 hm7
                split at hm7
                · split at hm7
                  · exact absurd hm7 (by simp)
                  · rename_i co2 m6 hrun2
                    injection hm7 with hm7
                    have hm6 := clock_other_run_eq _ co2 m6 hrun2
                    subst hm6
                    subst hm7
                    split
                    · exact ⟨outboxEvolves_trans hout2 (clearNacked_evolves _ _ _),
                        inboxEvolves_trans (inboxEvolves_trans hin1
                          (ingestGo_evolves _ _ _ _)) (linkGo_evolves _ _ _)⟩
                    · exact ⟨outboxEvolves_trans hout2 (clearNacked_evolves _ _ _),
                        inboxEvolves_trans hin1 (ingestGo_evolves _ _ _ _)⟩
                · injection hm7 with hm7
                  subst hm7
                  split
                  · exact ⟨hout2, inboxEvolves_trans (inboxEvolves_trans hin1
                      (ingestGo_evolves _ _ _ _)) (linkGo_evolves _ _ _)⟩
                  · exact ⟨hout2,
                      inboxEvolves_trans hin1 (ingestGo_evolves _ _ _ _)⟩
            · exact ⟨hout2, hin1⟩
          · exact ⟨hout2, hgrow⟩
        · exact ⟨hout1, hgrow⟩

/-- Amended C9: across every finite sequence of `append_outbox_data`,
`create_packet`, `packet_send` and `packet_receive` calls (with
pydantic-valid packets), every existing outbox slot keeps a non-null
`acked` unchanged, and every existing inbox slot keeps a non-null
`ack_acked` unchanged and keeps the wire content (header and payload) of
a non-null `message` unchanged — only the message's in-memory
`previous_message` link may later be set by multipart linking, which is
the one mutation the original claim's "never changed" wording rules out
(see the counterexample). -/
theorem messenger_write_once_fields (C : Crypto) (m : Messenger)
    (ops : List MOp) (hops : ∀ op ∈ ops, opOK op = true) :
    messengerStable m (runOps C m ops) := by
  induction ops generalizing m with
  | nil => exact messengerStable_refl m
  | cons op rest ih =>
    have h1 : messengerStable m (applyOp C m op) := by
      cases op with
      | append ct d => exact append_outbox_data_stable C m ct d
      | create rt now hk => exact create_packet_stable m rt now hk
      | send p => exact packet_send_stable m p
      | receive p => exact packet_receive_stable m p
    exact messengerStable_trans h1
      (ih _ fun op' h' => hops op' (List.mem_cons_of_mem _ h'))

/-- Witness for the amended C9 stability at the concrete two-receive
multipart scenario. -/
theorem messenger_write_once_fields_witness :
    messengerStable c9_messenger (runOps trivialCrypto c9_messenger
      [MOp.receive c9_packet_first, MOp.receive c9_packet_second]) :=
  messenger_write_once_fields trivialCrypto c9_messenger
    [MOp.receive c9_packet_first, MOp.receive c9_packet_second] (by decide)

/-! ## C4 -/

theorem parseMessages_of_chain (C : Crypto) (key : List Nat) :
    ∀ (ms : List Message) (r r2 rf : List Nat) (n : Nat),
      MsgChain C key r ms r2 → ms.length < n →
      Message.parse C key r2 = .fail rf →
      parseMessages C key n r = (ms, rf) := by
  intro ms r r2 rf n hchain
  induction hchain generalizing n with
  | nil r =>
    intro hn hf
    cases n with
    | zero => omega
    | succ n =>
      unfold parseMessages
      rw [hf]
  | cons hp _ ih =>
    intro hn hf
    cases n with
    | zero => simp at hn
    | succ n =>
      unfold parseMessages
      rw [hp]
      dsimp only []
      rw [ih n (by simpa using hn) hf]

/-- Claim C4: partial-packet resilience of `Packet.from_file`.  Whenever
the leading `PACKET_HEADER_SIZE` bytes decode to a header, `from_file`
returns a packet (it never fails); if the Control block fails to parse
the packet is `⟨header, control = none, messages = []⟩`; and if Control
parses but the `(k+1)`-th message fails, the packet carries exactly the
`k` successfully-parsed messages. -/
theorem packet_from_file_resilient (C : Crypto) (secret data : List Nat)
    (h : PacketHeader)
    (hhdr : PacketHeader.from_bytes C (data.take PACKET_HEADER_SIZE) secret =
      some h) :
    (∃ p rest, Packet.from_file C secret data = some (p, rest) ∧
      p.header = h) ∧
    (∀ r, Control.parse C (data.drop PACKET_HEADER_SIZE) = .fail r →
      Packet.from_file C secret data = some (⟨h, none, []⟩, r)) ∧
    (∀ c r ms r2 rf, Control.parse C (data.drop PACKET_HEADER_SIZE) = .ok c r →
      MsgChain C h.hash_key r ms r2 →
      ms.length < h.num_messages →
      Message.parse C h.hash_key r2 = .fail rf →
      Packet.from_file C secret data = some (⟨h, some c, ms⟩, rf)) := by
  refine ⟨?_, ?_, ?_⟩
  · unfold Packet.from_file
    rw [hhdr]
    dsimp only []
    cases hc : Control.parse C (data.drop PACKET_HEADER_SIZE) with
    | fail r =>
      exact ⟨⟨h, none, []⟩, r, rfl, rfl⟩
    | ok c r =>
      exact ⟨⟨h, some c, (parseMessages C h.hash_key h.num_messages r).1⟩,
        (parseMessages C h.hash_key h.num_messages r).2, rfl, rfl⟩
  · intro r hc
    unfold Packet.from_file
    rw [hhdr]
    dsimp only []
    rw [hc]
  · intro c r ms r2 rf hc hchain hlen hf
    unfold Packet.from_file
    rw [hhdr]
    dsimp only []
    rw [hc]
    dsimp only []
    rw [parseMessages_of_chain C h.hash_key ms r r2 rf
      h.num_messages hchain hlen hf]

/-- Witness for C4 at a concrete input: the encoded header followed by
nothing — the Control block fails to parse, and `from_file` returns the
header with `control = none` and no messages. -/
theorem packet_from_file_resilient_witness :
    Packet.from_file trivialCrypto s0 c4_header_bytes =
      some (⟨c4_header, none, []⟩, []) :=
  (packet_from_file_resilient trivialCrypto s0 c4_header_bytes c4_header
    (by decide)).2.1 [] (by decide)

/-! ## C1: slicing lemmas for the fixed layouts -/

theorem drop_chunk {α : Type} :
    ∀ (a b : List α) (j : Nat), (a ++ b).drop (a.length + j) = b.drop j := by
  intro a
  induction a with
  | nil => intro b j; simp
  | cons x xs ih =>
    intro b j
    have hj : xs.length + 1 + j = (xs.length + j) + 1 := by omega
    simp only [List.cons_append, List.length_cons, hj, List.drop_succ_cons]
    exact ih b j

theorem drop_at {α : Type} (a b : List α) (k : Nat) (h : a.length = k) :
    (a ++ b).drop k = b := by
  subst h
  have := drop_chunk a b 0
  simp only [Nat.add_zero] at this
  simpa using this

/-- The eight fixed-width segments of an encoded `PacketHeader` and the
slices `PacketHeader.from_bytes` takes from them. -/
theorem headerSlices (s1 s2 s3 s4 s5 s6 s7 s8 : List Nat)
    (h1 : s1.length = 16) (h2 : s2.length = 16) (h3 : s3.length = 4)
    (h4 : s4.length = 4) (h5 : s5.length = 4) (h6 : s6.length = 4)
    (h7 : s7.length = 44) (h8 : s8.length = 8) :
    (s1 ++ (s2 ++ (s3 ++ (s4 ++ (s5 ++ (s6 ++ (s7 ++ s8))))))).length = 100 ∧
    (s1 ++ (s2 ++ (s3 ++ (s4 ++ (s5 ++ (s6 ++ (s7 ++ s8))))))).take 16 = s1 ∧
    ((s1 ++ (s2 ++ (s3 ++ (s4 ++ (s5 ++ (s6 ++ (s7 ++ s8))))))).drop 16).take 16 = s2 ∧
    ((s1 ++ (s2 ++ (s3 ++ (s4 ++ (s5 ++ (s6 ++ (s7 ++ s8))))))).drop 32).take 4 = s3 ∧
    ((s1 ++ (s2 ++ (s3 ++ (s4 ++ (s5 ++ (s6 ++ (s7 ++ s8))))))).drop 36).take 4 = s4 ∧
    ((s1 ++ (s2 ++ (s3 ++ (s4 ++ (s5 ++ (s6 ++ (s7 ++ s8))))))).drop 40).take 4 = s5 ∧
    ((s1 ++ (s2 ++ (s3 ++ (s4 ++ (s5 ++ (s6 ++ (s7 ++ s8))))))).drop 44).take 4 = s6 ∧
    ((s1 ++ (s2 ++ (s3 ++ (s4 ++ (s5 ++ (s6 ++ (s7 ++ s8))))))).drop 48).take 44 = s7 ∧
    (s1 ++ (s2 ++ (s3 ++ (s4 ++ (s5 ++ (s6 ++ (s7 ++ s8))))))).take 92 =
      s1 ++ (s2 ++ (s3 ++ (s4 ++ (s5 ++ (s6 ++ s7))))) ∧
    (s1 ++ (s2 ++ (s3 ++ (s4 ++ (s5 ++ (s6 ++ (s7 ++ s8))))))).drop 92 = s8 := by
  have d16 : (s1 ++ (s2 ++ (s3 ++ (s4 ++ (s5 ++ (s6 ++ (s7 ++ s8))))))).drop 16 =
      s2 ++ (s3 ++ (s4 ++ (s5 ++ (s6 ++ (s7 ++ s8))))) := drop_at _ _ _ h1
  have d32 : (s1 ++ (s2 ++ (s3 ++ (s4 ++ (s5 ++ (s6 ++ (s7 ++ s8))))))).drop 32 =
      s3 ++ (s4 ++ (s5 ++ (s6 ++ (s7 ++ s8)))) := by
    rw [show (32 : Nat) = 16 + 16 from rfl, ← List.drop_drop, d16]
    exact drop_at _ _ _ h2
  have d36 : (s1 ++ (s2 ++ (s3 ++ (s4 ++ (s5 ++ (s6 ++ (s7 ++ s8))))))).drop 36 =
      s4 ++ (s5 ++ (s6 ++ (s7 ++ s8))) := by
    rw [show (36 : Nat) = 32 + 4 from rfl, ← List.drop_drop, d32]
    exact drop_at _ _ _ h3
  have d40 : (s1 ++ (s2 ++ (s3 ++ (s4 ++ (s5 ++ (s6 ++ (s7 ++ s8))))))).drop 40 =
      s5 ++ (s6 ++ (s7 ++ s8)) := by
    rw [show (40 : Nat) = 36 + 4 from rfl, ← List.drop_drop, d36]
    exact drop_at _ _ _ h4
  have d44 : (s1 ++ (s2 ++ (s3 ++ (s4 ++ (s5 ++ (s6 ++ (s7 ++ s8))))))).drop 44 =
      s6 ++ (s7 ++ s8) := by
    rw [show (44 : Nat) = 40 + 4 from rfl, ← List.drop_drop, d40]
    exact drop_at _ _ _ h5
  have d48 : (s1 ++ (s2 ++ (s3 ++ (s4 ++ (s5 ++ (s6 ++ (s7 ++ s8))))))).drop 48 =
      s7 ++ s8 := by
    rw [show (48 : Nat) = 44 + 4 from rfl, ← List.drop_drop, d44]
    exact drop_at _ _ _ h6
  have hassoc : s1 ++ (s2 ++ (s3 ++ (s4 ++ (s5 ++ (s6 ++ (s7 ++ s8)))))) =
      (s1 ++ (s2 ++ (s3 ++ (s4 ++ (s5 ++ (s6 ++ s7)))))) ++ s8 := by
    simp [List.append_assoc]
  have hlen92 : (s1 ++ (s2 ++ (s3 ++ (s4 ++ (s5 ++ (s6 ++ s7)))))).length = 92 := by
    simp [List.length_append, h1, h2, h3, h4, h5, h6, h7]
  refine ⟨?_, List.take_left' h1, ?_, ?_, ?_, ?_, ?_, ?_, ?_, ?_⟩
  · simp [List.length_append, h1, h2, h3, h4, h5, h6, h7, h8]
  · rw [d16]; exact List.take_left' h2
  · rw [d32]; exact List.take_left' h3
  · rw [d36]; exact List.take_left' h4
  · rw [d40]; exact List.take_left' h5
  · rw [d44]; exact List.take_left' h6
  · rw [d48]; exact List.take_left' h7
  · rw [hassoc]; exact List.take_left' hlen92
  · rw [hassoc]; exact drop_at _ _ _ hlen92

/-- The five fixed-width segments of an encoded `MessageHeader` and the
slices `MessageHeader.from_bytes` takes from them. -/
theorem messageHeaderSlices (s1 s2 s3 s4 s5 s6 : List Nat)
    (h1 : s1.length = 4) (h2 : s2.length = 4) (h3 : s3.length = 4)
    (h4 : s4.length = 2) (h5 : s5.length = 16) (h6 : s6.length = 8) :
    (s1 ++ (s2 ++ (s3 ++ (s4 ++ (s5 ++ s6))))).length = 38 ∧
    (s1 ++ (s2 ++ (s3 ++ (s4 ++ (s5 ++ s6))))).take 4 = s1 ∧
    ((s1 ++ (s2 ++ (s3 ++ (s4 ++ (s5 ++ s6))))).drop 4).take 4 = s2 ∧
    ((s1 ++ (s2 ++ (s3 ++ (s4 ++ (s5 ++ s6))))).drop 8).take 4 = s3 ∧
    ((s1 ++ (s2 ++ (s3 ++ (s4 ++ (s5 ++ s6))))).drop 12).take 2 = s4 ∧
    ((s1 ++ (s2 ++ (s3 ++ (s4 ++ (s5 ++ s6))))).drop 14).take 16 = s5 ∧
    (s1 ++ (s2 ++ (s3 ++ (s4 ++ (s5 ++ s6))))).take 30 =
      s1 ++ (s2 ++ (s3 ++ (s4 ++ s5))) ∧
    (s1 ++ (s2 ++ (s3 ++ (s4 ++ (s5 ++ s6))))).drop 30 = s6 := by
  have d4 : (s1 ++ (s2 ++ (s3 ++ (s4 ++ (s5 ++ s6))))).drop 4 =
      s2 ++ (s3 ++ (s4 ++ (s5 ++ s6))) := drop_at _ _ _ h1
  have d8 : (s1 ++ (s2 ++ (s3 ++ (s4 ++ (s5 ++ s6))))).drop 8 =
      s3 ++ (s4 ++ (s5 ++ s6)) := by
    rw [show (8 : Nat) = 4 + 4 from rfl, ← List.drop_drop, d4]
    exact drop_at _ _ _ h2
  have d12 : (s1 ++ (s2 ++ (s3 ++ (s4 ++ (s5 ++ s6))))).drop 12 =
      s4 ++ (s5 ++ s6) := by
    rw [show (12 : Nat) = 8 + 4 from rfl, ← List.drop_drop, d8]
    exact drop_at _ _ _ h3
  have d14 : (s1 ++ (s2 ++ (s3 ++ (s4 ++ (s5 ++ s6))))).drop 14 =
      s5 ++ s6 := by
    rw [show (14 : Nat) = 12 + 2 from rfl, ← List.drop_drop, d12]
    exact drop_at _ _ _ h4
  have hassoc : s1 ++ (s2 ++ (s3 ++ (s4 ++ (s5 ++ s6)))) =
      (s1 ++ (s2 ++ (s3 ++ (s4 ++ s5)))) ++ s6 := by
    simp [List.append_assoc]
  have hlen30 : (s1 ++ (s2 ++ (s3 ++ (s4 ++ s5)))).length = 30 := by
    simp [List.length_append, h1, h2, h3, h4, h5]
  refine ⟨?_, List.take_left' h1, ?_, ?_, ?_, ?_, ?_, ?_⟩
  · simp [List.length_append, h1, h2, h3, h4, h5, h6]
  · rw [d4]; exact List.take_left' h2
  · rw [d8]; exact List.take_left' h3
  · rw [d12]; exact List.take_left' h4
  · rw [d14]; exact List.take_left' h5
  · rw [hassoc]; exact List.take_left' hlen30
  · rw [hassoc]; exact drop_at _ _ _ hlen30

/-! ## C1: round-trip lemmas for the word and header codecs -/

theorem inRangeId_lt {n : Nat} (h : inRangeId n = true) : n < 4294967296 := by
  simp only [inRangeId, MAX_INT_32, Bool.and_eq_true, decide_eq_true_eq] at h
  omega

theorem inRangeClock_lt {n : Nat} (h : inRangeClock n = true) : n < 4294967296 := by
  simp only [inRangeClock, MAX_INT_32, decide_eq_true_eq] at h
  omega

theorem isContentType_lt {n : Nat} (h : isContentType n = true) : n < 65536 := by
  simp only [isContentType, ContentType.STRING, ContentType.BINARY,
    ContentType.JSON_DICT, ContentType.MULTIPART_FRAGMENT, Bool.or_eq_true,
    decide_eq_true_eq] at h
  omega

theorem Coerce.to_uuid_self (u : List Nat) (h : u.length = 16) :
    Coerce.to_uuid u = some u := by
  simp [Coerce.to_uuid, h]

theorem Coerce.from_datetime32_length (t : Int) :
    (Coerce.from_datetime32 t).length = 4 := rfl

theorem readWord_append (n : Nat) (rest : List Nat) (h : n < 4294967296) :
    readWord (Coerce.from_unsigned_integer32 n ++ rest) = .ok n rest := by
  have ht : (Coerce.from_unsigned_integer32 n ++ rest).take 4 =
      Coerce.from_unsigned_integer32 n :=
    List.take_left' (Coerce.from_unsigned_integer32_length n)
  have hd : (Coerce.from_unsigned_integer32 n ++ rest).drop 4 = rest :=
    drop_at _ _ _ (Coerce.from_unsigned_integer32_length n)
  simp only [readWord, ht, Coerce.to_from_unsigned_integer32 n h, hd]

theorem readWords_append (ws : List Nat) (rest : List Nat)
    (h : ∀ w ∈ ws, w < 4294967296) :
    readWords ws.length ((ws.map Coerce.from_unsigned_integer32).flatten ++ rest) =
      .ok ws rest := by
  induction ws generalizing rest with
  | nil => simp [readWords]
  | cons w ws ih =>
    simp only [List.map_cons, List.flatten_cons, List.length_cons,
      List.append_assoc]
    rw [readWords, readWord_append w _ (h w (by simp))]
    dsimp only []
    rw [ih _ (fun w' hw' => h w' (by simp [hw']))]

/-- `MessageHeader.from_bytes` inverts `MessageHeader.to_bytes` on
wire-valid headers (and the encoding has the fixed header length). -/
theorem messageHeader_to_from (C : Crypto) (hC : CryptoOK C) (hash_key : List Nat)
    (h : MessageHeader) (hmid : inRangeId h.message_id = true)
    (hmp : inRangeClock h.message_prev = true)
    (hcl : inRangeClock h.content_length = true)
    (hct : isContentType h.content_type = true)
    (hch : h.content_hash.length = 16) :
    (h.to_bytes C hash_key).length = MESSAGE_HEADER_SIZE ∧
    MessageHeader.from_bytes C (h.to_bytes C hash_key) hash_key = some h := by
  have hS := messageHeaderSlices (Coerce.from_unsigned_integer32 h.message_id)
    (Coerce.from_unsigned_integer32 h.message_prev)
    (Coerce.from_unsigned_integer32 h.content_length)
    (Coerce.from_unsigned_integer16 h.content_type) h.content_hash
    (C.blake2b hash_key (Coerce.from_unsigned_integer32 h.message_id ++
      (Coerce.from_unsigned_integer32 h.message_prev ++
      (Coerce.from_unsigned_integer32 h.content_length ++
      (Coerce.from_unsigned_integer16 h.content_type ++ h.content_hash))))
      MESSAGE_HEADER_DIGEST_SIZE)
    (Coerce.from_unsigned_integer32_length _) (Coerce.from_unsigned_integer32_length _)
    (Coerce.from_unsigned_integer32_length _) (Coerce.from_unsigned_integer16_length _)
    hch (hC.blake2b_length _ _ _)
  obtain ⟨hL, t4, t8, t12, t14, t16, t30, d30⟩ := hS
  constructor
  · simp only [MessageHeader.to_bytes, List.append_assoc]
    rw [hL]
    rfl
  · simp only [MessageHeader.to_bytes, MessageHeader.from_bytes, List.append_assoc]
    rw [if_pos (show _ = MESSAGE_HEADER_SIZE by rw [hL]; rfl)]
    rw [show MESSAGE_HEADER_SIZE - MESSAGE_HEADER_DIGEST_SIZE = 30 from rfl]
    rw [d30, t30]
    rw [if_pos rfl]
    rw [t4, Coerce.to_from_unsigned_integer32 _ (inRangeId_lt hmid)]
    rw [t8, Coerce.to_from_unsigned_integer32 _ (inRangeClock_lt hmp)]
    rw [t12, Coerce.to_from_unsigned_integer32 _ (inRangeClock_lt hcl)]
    rw [t14, Coerce.to_from_unsigned_integer16 _ (isContentType_lt hct)]
    dsimp only []
    rw [if_pos (by simp [hmid, hmp, hcl, hct])]
    rw [show MESSAGE_DIGEST_SIZE = 16 from rfl, t16]

/-- `Message.parse` inverts `Message.to_bytes` on wire-valid,
codec-consistent messages, consuming exactly the message's encoding. -/
theorem message_parse_append (C : Crypto) (hC : CryptoOK C) (hash_key : List Nat)
    (msg : Message) (rest : List Nat) (hv : messageWireValid msg = true)
    (hcc : messageCodecConsistent C msg = true) :
    Message.parse C hash_key (Message.to_bytes C hash_key msg ++ rest) =
      .ok msg rest := by
  cases msg with
  | mk hdr bd pm =>
    simp only [messageWireValid, messageCodecConsistent, Message.header,
      Message.binary_data, Message.previous_message, Bool.and_eq_true,
      decide_eq_true_eq] at hv hcc
    obtain ⟨⟨⟨⟨hmid, hmp⟩, hcl⟩, hct⟩, hch⟩ := hv
    obtain ⟨⟨hlen, hhash⟩, hprev⟩ := hcc
    subst hprev
    obtain ⟨hhl, hfrom⟩ :=
      messageHeader_to_from C hC hash_key hdr hmid hmp hcl hct (by rw [hch]; rfl)
    simp only [Message.parse, Message.to_bytes, Message.header,
      Message.binary_data, List.append_assoc]
    rw [List.take_left' hhl, hfrom]
    dsimp only []
    rw [drop_at _ _ _ hhl, hlen, List.take_left, List.drop_left,
      if_pos hhash.symm]

/-- The message loop of `Packet.from_file` parses back a concatenation of
wire-valid, codec-consistent message encodings. -/
theorem parseMessages_append (C : Crypto) (hC : CryptoOK C) (hash_key : List Nat)
    (msgs : List Message) (rest : List Nat)
    (h : ∀ m ∈ msgs, messageWireValid m = true ∧ messageCodecConsistent C m = true) :
    parseMessages C hash_key msgs.length
      ((msgs.map (Message.to_bytes C hash_key)).flatten ++ rest) = (msgs, rest) := by
  induction msgs generalizing rest with
  | nil => simp [parseMessages]
  | cons m ms ih =>
    simp only [List.map_cons, List.flatten_cons, List.length_cons,
      List.append_assoc]
    rw [parseMessages,
      message_parse_append C hC hash_key m _ (h m (by simp)).1 (h m (by simp)).2]
    dsimp only []
    rw [ih _ (fun m' hm' => h m' (by simp [hm']))]

/-- `Control.parse` inverts `Control.to_bytes` on wire-valid control
blocks (whose list lengths are `struct.pack`-representable), consuming
exactly the control block's encoding. -/
theorem control_parse_append (C : Crypto) (hC : CryptoOK C) (c : Control)
    (rest : List Nat) (hv : controlWireValid c = true)
    (hso : c.sender_clock_out_of_order.length < 4294967296)
    (hnk : c.nack_ids.length < 4294967296) :
    Control.parse C (Control.to_bytes C c ++ rest) = .ok c rest := by
  simp only [controlWireValid, Bool.and_eq_true] at hv
  obtain ⟨⟨⟨⟨hscs, hscr⟩, hrcs⟩, hsacks⟩, hnacks⟩ := hv
  have hsa : ∀ w ∈ c.sender_clock_out_of_order, w < 4294967296 := by
    intro w hw
    exact inRangeId_lt (by simpa using List.all_eq_true.mp hsacks w hw)
  have hna : ∀ w ∈ c.nack_ids, w < 4294967296 := by
    intro w hw
    exact inRangeId_lt (by simpa using List.all_eq_true.mp hnacks w hw)
  simp only [Control.to_bytes, Control.parse, List.append_assoc]
  rw [readWord_append _ _ (inRangeClock_lt hscs)]
  dsimp only []
  rw [readWord_append _ _ (inRangeClock_lt hscr)]
  dsimp only []
  rw [readWord_append _ _ hso]
  dsimp only []
  rw [readWords_append _ _ hsa]
  dsimp only []
  rw [readWord_append _ _ hnk]
  dsimp only []
  rw [readWords_append _ _ hna]
  dsimp only []
  rw [readWord_append _ _ (inRangeClock_lt hrcs)]
  dsimp only []
  set a1 := Coerce.from_unsigned_integer32 c.sender_clock_sender with ha1
  set a2 := Coerce.from_unsigned_integer32 c.sender_clock_recipient with ha2
  set a3 := Coerce.from_unsigned_integer32 c.sender_clock_out_of_order.length with ha3
  set f1 := (c.sender_clock_out_of_order.map Coerce.from_unsigned_integer32).flatten with hf1
  set a4 := Coerce.from_unsigned_integer32 c.nack_ids.length with ha4
  set f2 := (c.nack_ids.map Coerce.from_unsigned_integer32).flatten with hf2
  set a5 := Coerce.from_unsigned_integer32 c.recipient_clock_sender with ha5
  set T := C.blake2b [] (a1 ++ (a2 ++ (a3 ++ (f1 ++ (a4 ++ (f2 ++ a5))))))
    HEADER_DIGEST_SIZE with hT
  have hTlen : T.length = HEADER_DIGEST_SIZE := by
    rw [hT]
    exact hC.blake2b_length _ _ _
  rw [show a1 ++ (a2 ++ (a3 ++ (f1 ++ (a4 ++ (f2 ++ (a5 ++ (T ++ rest))))))) =
    (a1 ++ (a2 ++ (a3 ++ (f1 ++ (a4 ++ (f2 ++ a5)))))) ++ (T ++ rest) from by
      simp [List.append_assoc]]
  have hlen : ((a1 ++ (a2 ++ (a3 ++ (f1 ++ (a4 ++ (f2 ++ a5)))))) ++
      (T ++ rest)).length - (T ++ rest).length =
      (a1 ++ (a2 ++ (a3 ++ (f1 ++ (a4 ++ (f2 ++ a5)))))).length := by
    simp only [List.length_append]
    omega
  rw [hlen, List.take_left, List.take_left' hTlen, drop_at _ _ _ hTlen,
    if_pos hT.symm, if_pos (by simp [hscs, hscr, hrcs, hsacks, hnacks])]

/-- `PacketHeader.from_bytes` on a byte string laid out as the eight
fixed-width segments of `PacketHeader.to_bytes`: 16-byte uuids, three
u32 fields, an i32 timestamp, a 44-byte decryptable token and the keyed
8-byte tag over the first 92 bytes. -/
theorem packetHeader_from_bytes_segments (C : Crypto) (secret : List Nat)
    (su ru ek tag hk : List Nat) (pid nm pv : Nat) (ts : Int)
    (h1 : su.length = 16) (h2 : ru.length = 16) (h7 : ek.length = 44)
    (hpid : pid < 4294967296) (hnm : nm < 4294967296) (hpv : pv < 4294967296)
    (hts1 : -2147483648 ≤ ts) (hts2 : ts < 2147483648)
    (hdec : decrypt_key C ek secret = some hk)
    (htag : tag = C.blake2b hk (su ++ (ru ++ (Coerce.from_unsigned_integer32 pid ++
      (Coerce.from_unsigned_integer32 nm ++ (Coerce.from_datetime32 ts ++
      (Coerce.from_unsigned_integer32 pv ++ ek)))))) HEADER_DIGEST_SIZE)
    (h8 : tag.length = 8)
    (hrange : (inRangeId pid && inRangeClock nm && inRangeId pv) = true) :
    PacketHeader.from_bytes C (su ++ (ru ++ (Coerce.from_unsigned_integer32 pid ++
      (Coerce.from_unsigned_integer32 nm ++ (Coerce.from_datetime32 ts ++
      (Coerce.from_unsigned_integer32 pv ++ (ek ++ tag))))))) secret =
      some ⟨su, ru, pid, nm, ts, pv, hk⟩ := by
  obtain ⟨hL, t16, t1616, t32, t36, t40, t44, t48, t92, d92⟩ :=
    headerSlices su ru (Coerce.from_unsigned_integer32 pid)
      (Coerce.from_unsigned_integer32 nm) (Coerce.from_datetime32 ts)
      (Coerce.from_unsigned_integer32 pv) ek tag h1 h2
      (Coerce.from_unsigned_integer32_length _)
      (Coerce.from_unsigned_integer32_length _)
      (Coerce.from_datetime32_length _)
      (Coerce.from_unsigned_integer32_length _) h7 h8
  simp only [PacketHeader.from_bytes]
  rw [if_pos (show _ = PACKET_HEADER_SIZE by rw [hL]; rfl)]
  rw [show TOKEN_LEN = 44 from rfl, t48, hdec]
  dsimp only []
  rw [show PACKET_HEADER_SIZE - HEADER_DIGEST_SIZE = 92 from rfl, d92, t92]
  rw [if_pos htag.symm]
  rw [t16, Coerce.to_uuid_self su h1]
  rw [t1616, Coerce.to_uuid_self ru h2]
  rw [t32, Coerce.to_from_unsigned_integer32 _ hpid]
  rw [t36, Coerce.to_from_unsigned_integer32 _ hnm]
  rw [t40, Coerce.to_from_datetime32 _ hts1 hts2]
  rw [t44, Coerce.to_from_unsigned_integer32 _ hpv]
  dsimp only []
  rw [if_pos hrange]

/-- `PacketHeader.to_bytes` succeeds on a wire-valid header with a 12-byte
nonce, produces exactly `PACKET_HEADER_SIZE` bytes, and
`PacketHeader.from_bytes` inverts it. -/
theorem packetHeader_roundtrip (C : Crypto) (hC : CryptoOK C)
    (nonce secret : List Nat) (h : PacketHeader) (hn : nonce.length = 12)
    (hv : headerWireValid h = true) :
    ∃ hb, h.to_bytes C nonce secret = some hb ∧ hb.length = PACKET_HEADER_SIZE ∧
      PacketHeader.from_bytes C hb secret = some h := by
  simp only [headerWireValid, Bool.and_eq_true, decide_eq_true_eq] at hv
  obtain ⟨⟨⟨⟨⟨⟨⟨hsu, hru⟩, hpid⟩, hnm⟩, hts1⟩, hts2⟩, hpv⟩, hhk⟩ := hv
  have hhk16 : h.hash_key.length = 16 := hhk
  have henc : encrypt_key C nonce h.hash_key secret =
      some (nonce ++ C.aeadEncrypt (secret.take 32) nonce h.hash_key) := by
    simp only [encrypt_key]
    rw [if_pos hhk, if_pos (show _ = TOKEN_LEN - nonce.length by
      rw [hC.aead_length, hhk16, hn]; rfl)]
  have hek44 : (nonce ++ C.aeadEncrypt (secret.take 32) nonce h.hash_key).length
      = 44 := by
    simp [List.length_append, hn, hC.aead_length, hhk16]
  have hdec : decrypt_key C
      (nonce ++ C.aeadEncrypt (secret.take 32) nonce h.hash_key) secret =
      some h.hash_key := by
    simp only [decrypt_key]
    rw [if_pos (show _ = TOKEN_LEN by rw [hek44]; rfl)]
    rw [List.take_left' hn, drop_at _ _ _ hn, hC.aead_roundtrip]
    dsimp only []
    rw [if_pos hhk]
  refine ⟨h.sender_uuid ++ (h.recipient_uuid ++
      (Coerce.from_unsigned_integer32 h.packet_id ++
      (Coerce.from_unsigned_integer32 h.num_messages ++
      (Coerce.from_datetime32 h.packet_timestamp ++
      (Coerce.from_unsigned_integer32 h.protocol_version ++
      ((nonce ++ C.aeadEncrypt (secret.take 32) nonce h.hash_key) ++
       C.blake2b h.hash_key (h.sender_uuid ++ (h.recipient_uuid ++
        (Coerce.from_unsigned_integer32 h.packet_id ++
        (Coerce.from_unsigned_integer32 h.num_messages ++
        (Coerce.from_datetime32 h.packet_timestamp ++
        (Coerce.from_unsigned_integer32 h.protocol_version ++
        (nonce ++ C.aeadEncrypt (secret.take 32) nonce h.hash_key)))))))
        HEADER_DIGEST_SIZE)))))), ?_, ?_, ?_⟩
  · simp only [PacketHeader.to_bytes, henc, Coerce.from_uuid]
    rw [if_pos (show _ = PACKET_HEADER_SIZE by
      simp only [List.length_append, Coerce.from_unsigned_integer32_length,
        Coerce.from_datetime32_length, hsu, hru, hn, hC.aead_length, hhk16,
        hC.blake2b_length, PACKET_HEADER_SIZE, TOKEN_LEN, HEADER_DIGEST_SIZE])]
    simp [List.append_assoc]
  · simp only [List.length_append, Coerce.from_unsigned_integer32_length,
      Coerce.from_datetime32_length, hsu, hru, hn, hC.aead_length, hhk16,
      hC.blake2b_length, PACKET_HEADER_SIZE, TOKEN_LEN, HEADER_DIGEST_SIZE]
  · exact packetHeader_from_bytes_segments C secret _ _ _ _ _ _ _ _ _
      hsu hru hek44 (inRangeId_lt hpid) (inRangeClock_lt hnm)
      (inRangeId_lt hpv) hts1 hts2 hdec rfl (hC.blake2b_length _ _ _)
      (by simp [hpid, hnm, hpv])

/-- C1 (amended): for every crypto primitive satisfying the library laws,
every 12-byte nonce and every wire-valid packet whose control-list
lengths are `struct.pack`-representable and whose messages are
codec-consistent (true `content_length`, true `content_hash`, no
in-memory `previous_message` link — exactly what `Message.from_content`
establishes), `Packet.from_bytes` inverts `Packet.to_bytes`.  Claim C1
as written fails on messages that carry a `previous_message` link (see
the counterexample): the link is not serialised, so the decoded packet
is the original with the link stripped. -/
theorem packet_roundtrip_consistent (C : Crypto) (hC : CryptoOK C)
    (nonce secret : List Nat) (p : Packet) (hn : nonce.length = 12)
    (hv : packetWireValid p = true)
    (hlens : match p.control with
      | some c => c.sender_clock_out_of_order.length < 4294967296 ∧
          c.nack_ids.length < 4294967296
      | none => True)
    (hmsg : ∀ msg ∈ p.messages, messageCodecConsistent C msg = true) :
    (p.to_bytes C nonce secret).bind (Packet.from_bytes C secret) = some p := by
  obtain ⟨hdr, ctl, msgs⟩ := p
  cases ctl with
  | none =>
    exfalso
    simp [packetWireValid] at hv
  | some c =>
    simp only [packetWireValid, Bool.and_eq_true, decide_eq_true_eq] at hv
    obtain ⟨⟨⟨hhdr, hctl⟩, hcnt⟩, hall⟩ := hv
    obtain ⟨hso, hnk⟩ := hlens
    obtain ⟨hb, hto, hbl, hfrom⟩ := packetHeader_roundtrip C hC nonce secret hdr hn hhdr
    simp only [Packet.to_bytes]
    rw [if_pos hcnt]
    rw [hto]
    dsimp only [Option.bind]
    simp only [Packet.from_bytes, Packet.from_file, List.append_assoc]
    rw [List.take_left' hbl, hfrom]
    dsimp only []
    rw [drop_at _ _ _ hbl]
    rw [control_parse_append C hC c _ hctl hso hnk]
    dsimp only []
    rw [← hcnt,
      ← List.append_nil ((msgs.map (Message.to_bytes C hdr.hash_key)).flatten)]
    rw [parseMessages_append C hC hdr.hash_key msgs []
      (fun m hm => ⟨List.all_eq_true.mp hall m hm, hmsg m hm⟩)]
    simp

/-- C1 counterexample: `c1_packet` is wire-valid and its message is
hash- and length-consistent, but it carries an in-memory
`previous_message` link, so the encode/decode round trip returns
`c1_packet_stripped` — the same packet with the link removed — which
differs from the original.  The spec's unqualified "decoding yields a
Packet equal to the original" is therefore false as stated. -/
theorem packet_roundtrip_loses_previous_message :
    packetWireValid c1_packet = true ∧
    (c1_packet.to_bytes trivialCrypto nonce0 s0).bind
      (Packet.from_bytes trivialCrypto s0) = some c1_packet_stripped ∧
    c1_packet_stripped ≠ c1_packet :=
  ⟨by decide, by decide, by decide⟩

/-- Witness for the amended round-trip theorem: the concrete packet
`c1_packet_stripped` (whose message has no `previous_message` link)
satisfies every hypothesis and round-trips to itself. -/
theorem packet_roundtrip_consistent_witness :
    nonce0.length = 12 ∧ packetWireValid c1_packet_stripped = true ∧
    (c1_packet_stripped.to_bytes trivialCrypto nonce0 s0).bind
      (Packet.from_bytes trivialCrypto s0) = some c1_packet_stripped :=
  ⟨by decide, by decide,
    packet_roundtrip_consistent trivialCrypto trivialCrypto_ok nonce0 s0
      c1_packet_stripped (by decide) (by decide)
      (by exact ⟨by decide, by decide⟩) (by decide)⟩
